import Mathlib

/-!
# Verification of the card-game core (pattern engine, game loop, ledger, replay)

Shallow embedding of the repository's Python sources:
* `core/cards.py`    — card codes, rank/suit derivation, rank order, sorting
* `core/hand_patterns.py` — hand matchers (single, pair, ... bomb, joker bomb)
* `core/registry.py` — `HandRegistry.evaluate` and `HandRegistry.can_beat`
* `core/ledger.py`   — hash-chained append-only ledger, `append` / `read_all`
* `core/replay.py`   — `rebuild` from a verified event sequence
* `core/rules.py`    — `StandardDouDizhuRules._bidding`
* `game.py`          — the PASS / PLAY turn loop of `Game.play`

Python dictionaries whose iteration order never influences results
(`collections.Counter` in `counts_by_rank`) are embedded as a key list in
first-occurrence order (`List.dedup` of the rank list) together with a count
function; every use site in the source is order-insensitive (it takes the
number of keys, the sorted values, the sorted keys, or the unique key with a
given count).  Python's `sorted` (a stable sort) is embedded as
`List.insertionSort` (also stable).  `RANK_VALUE` is embedded total via
`List.indexOf` (absent ranks map to 15 = list length, inputs on which the
Python raises `KeyError`).
-/

namespace Cards

/-! ## core/cards.py -/

/-- `RANK_ORDER` from cards.py: fixed rank sequence, lowest to highest. -/
def RANK_ORDER : List String :=
  ["3", "4", "5", "6", "7", "8", "9", "10", "J", "Q", "K", "A", "2", "BJ", "RJ"]

/-- `RANK_VALUE[r]` = index of `r` in `RANK_ORDER` (total via `indexOf`). -/
def RANK_VALUE (r : String) : Nat := RANK_ORDER.indexOf r

/-- `SUITS` from cards.py. -/
def SUITS : List Char := ['♠', '♥', '♣', '♦']

/-- A card is a single string `code` ('3♠', '10♦', 'BJ', 'RJ'). -/
structure Card where
  code : String
deriving DecidableEq, Repr

/-- `Card.is_joker`. -/
def Card.is_joker (c : Card) : Bool := c.code == "BJ" || c.code == "RJ"

/-- `ch in SUIT_SET`. -/
def isSuitChar (ch : Char) : Bool := SUITS.contains ch

/-- `Card.rank`: jokers are their own rank, otherwise the code with a
trailing suit symbol stripped, falling back to the raw code. -/
def Card.rank (c : Card) : String :=
  if c.is_joker then c.code
  else
    match c.code.toList.getLast? with
    | some ch => if isSuitChar ch then String.mk c.code.toList.dropLast else c.code
    | none => c.code

/-- `Card.suit`: `None` for jokers and for codes without a trailing suit. -/
def Card.suit (c : Card) : Option Char :=
  if c.is_joker then none
  else
    match c.code.toList.getLast? with
    | some ch => if isSuitChar ch then some ch else none
    | none => none

/-- `Card.value`. -/
def Card.value (c : Card) : Nat := RANK_VALUE c.rank

/-- `c.suit() or ""` as a string, the second sort-key component. -/
def suitKey (c : Card) : String := (c.suit.map (fun ch => String.mk [ch])).getD ""

/-- Lexicographic comparison of character lists by code point — Python's
string `<=` (embedded structurally so it evaluates). -/
def charListLe : List Char → List Char → Bool
  | [], _ => true
  | _ :: _, [] => false
  | a :: as, b :: bs => if a < b then true else if b < a then false else charListLe as bs

/-- Python's string `<=`. -/
def strLe (a b : String) : Prop := charListLe a.toList b.toList = true

instance : DecidableRel strLe := fun a b => by unfold strLe; infer_instance

lemma charListLe_cons {a b : Char} {as bs : List Char} :
    charListLe (a :: as) (b :: bs) =
      if a < b then true else if b < a then false else charListLe as bs := rfl

lemma charListLe_cons_iff {a b : Char} {as bs : List Char} :
    charListLe (a :: as) (b :: bs) = true ↔
      (a < b ∨ (a = b ∧ charListLe as bs = true)) := by
  rw [charListLe_cons]
  rcases lt_trichotomy a b with h | h | h
  · rw [if_pos h]
    simp [h]
  · subst h
    rw [if_neg (lt_irrefl a), if_neg (lt_irrefl a)]
    simp [lt_irrefl]
  · rw [if_neg (lt_asymm h), if_pos h]
    simp [lt_asymm h, h.ne']

lemma charListLe_total : ∀ as bs : List Char,
    charListLe as bs = true ∨ charListLe bs as = true := by
  intro as
  induction as with
  | nil => intro bs; exact Or.inl rfl
  | cons a as ih =>
      intro bs
      cases bs with
      | nil => exact Or.inr rfl
      | cons b bs =>
          rcases lt_trichotomy a b with h | h | h
          · exact Or.inl (charListLe_cons_iff.mpr (Or.inl h))
          · subst h
            rcases ih bs with h' | h'
            · exact Or.inl (charListLe_cons_iff.mpr (Or.inr ⟨rfl, h'⟩))
            · exact Or.inr (charListLe_cons_iff.mpr (Or.inr ⟨rfl, h'⟩))
          · exact Or.inr (charListLe_cons_iff.mpr (Or.inl h))

lemma charListLe_trans : ∀ as bs cs : List Char,
    charListLe as bs = true → charListLe bs cs = true → charListLe as cs = true := by
  intro as
  induction as with
  | nil => intro bs cs _ _; rfl
  | cons a as ih =>
      intro bs cs h1 h2
      cases bs with
      | nil => cases h1
      | cons b bs =>
          cases cs with
          | nil => cases h2
          | cons c cs =>
              rcases charListLe_cons_iff.mp h1 with hab | ⟨hab, hrec1⟩ <;>
                rcases charListLe_cons_iff.mp h2 with hbc | ⟨hbc, hrec2⟩
              · exact charListLe_cons_iff.mpr (Or.inl (lt_trans hab hbc))
              · exact charListLe_cons_iff.mpr (Or.inl (hbc ▸ hab))
              · exact charListLe_cons_iff.mpr (Or.inl (hab ▸ hbc))
              · exact charListLe_cons_iff.mpr (Or.inr ⟨hab.trans hbc, ih bs cs hrec1 hrec2⟩)

lemma charListLe_antisymm : ∀ as bs : List Char,
    charListLe as bs = true → charListLe bs as = true → as = bs := by
  intro as
  induction as with
  | nil =>
      intro bs h1 h2
      cases bs with
      | nil => rfl
      | cons b bs => cases h2
  | cons a as ih =>
      intro bs h1 h2
      cases bs with
      | nil => cases h1
      | cons b bs =>
          rcases charListLe_cons_iff.mp h1 with hab | ⟨hab, hrec1⟩ <;>
            rcases charListLe_cons_iff.mp h2 with hba | ⟨hba, hrec2⟩
          · exact absurd hba (lt_asymm hab)
          · exact absurd hba.symm (ne_of_lt hab)
          · exact absurd hab.symm (ne_of_lt hba)
          · rw [hab, ih bs hrec1 hrec2]

lemma strLe_antisymm {a b : String} (h1 : strLe a b) (h2 : strLe b a) : a = b := by
  have := charListLe_antisymm a.toList b.toList h1 h2
  exact String.toList_inj.mp this

/-- Python tuple order on the `sorted` key `(c.value(), c.suit() or "")`. -/
def cardSortLe (a b : Card) : Prop :=
  a.value < b.value ∨ (a.value = b.value ∧ strLe (suitKey a) (suitKey b))

instance : DecidableRel cardSortLe := fun a b => by unfold cardSortLe; infer_instance

instance : IsTotal Card cardSortLe := by
  constructor
  intro a b
  rcases Nat.lt_trichotomy a.value b.value with h | h | h
  · exact Or.inl (Or.inl h)
  · rcases charListLe_total (suitKey a).toList (suitKey b).toList with h' | h'
    · exact Or.inl (Or.inr ⟨h, h'⟩)
    · exact Or.inr (Or.inr ⟨h.symm, h'⟩)
  · exact Or.inr (Or.inl h)

instance : IsTrans Card cardSortLe := by
  constructor
  rintro a b c (h | ⟨h, h'⟩) (g | ⟨g, g'⟩)
  · exact Or.inl (h.trans g)
  · exact Or.inl (g ▸ h)
  · exact Or.inl (h ▸ g)
  · exact Or.inr ⟨h.trans g, charListLe_trans _ _ _ h' g'⟩

/-- `sort_cards`: stable sort by `(value, suit)`. -/
def sort_cards (cards : List Card) : List Card := List.insertionSort cardSortLe cards

end Cards

namespace Pattern

/-! ## core/hand_patterns.py -/

open Cards

/-- `PatternPriority` from enums.py (IntEnum values). -/
def PatternPriority.NORMAL : Nat := 10
def PatternPriority.STRONG : Nat := 20
def PatternPriority.BOMB : Nat := 90
def PatternPriority.JOKER_BOMB : Nat := 100

/-- `HandMatch` dataclass.  `meta` is the dict embedded as an
association list (`{"length": 5}` becomes `[("length", 5)]`). -/
structure HandMatch where
  name : String
  key : Nat
  meta : List (String × Nat)
  priority : Nat
  size : Nat
deriving DecidableEq, Repr

/-- A registered pattern: its class attributes plus its two methods. -/
structure HandPattern where
  name : String
  priority : Nat
  matchFn : List Card → Option HandMatch
  same_shape : HandMatch → HandMatch → Bool

/-- `[c.rank() for c in cards]`. -/
def rank_list (cards : List Card) : List String := cards.map Card.rank

/-- The key list of `counts_by_rank(cards)` (first-occurrence order). -/
def counts_keys (cards : List Card) : List String := (rank_list cards).dedup

/-- The count `counts_by_rank(cards)[r]`. -/
def rank_count (cards : List Card) (r : String) : Nat := (rank_list cards).count r

/-- `sorted(cnt.values())`. -/
def counts_values_sorted (cards : List Card) : List Nat :=
  List.insertionSort (· ≤ ·) ((counts_keys cards).map (rank_count cards))

/-- `is_consecutive`, adjacent-difference part (`vals[i+1] - vals[i] == 1`,
Python ints, so the subtraction is over `Int`). -/
def adjDiffOne : List Int → Bool
  | a :: b :: rest => (b - a == 1) && adjDiffOne (b :: rest)
  | _ => true

/-- `is_consecutive(ranks)`: no 2 / joker, and values rise by exactly 1. -/
def is_consecutive (ranks : List String) : Bool :=
  if ranks.any (fun r => r == "2" || r == "BJ" || r == "RJ") then false
  else adjDiffOne (ranks.map (fun r => (RANK_VALUE r : Int)))

/-- `JokerBomb.match`. -/
def jokerBombMatch (cards : List Card) : Option HandMatch :=
  if cards.length == 2 then
    if List.insertionSort strLe (rank_list cards) == ["BJ", "RJ"] then
      some ⟨"joker_bomb", RANK_VALUE "RJ", [], PatternPriority.JOKER_BOMB, 2⟩
    else none
  else none

/-- `Bomb.match`. -/
def bombMatch (cards : List Card) : Option HandMatch :=
  if cards.length == 4 then
    match counts_keys cards with
    | [r] => some ⟨"bomb", RANK_VALUE r, [], PatternPriority.BOMB, 4⟩
    | _ => none
  else none

/-- `Single.match`. -/
def singleMatch (cards : List Card) : Option HandMatch :=
  match cards with
  | [c] => some ⟨"single", RANK_VALUE c.rank, [], PatternPriority.NORMAL, 1⟩
  | _ => none

/-- `Pair.match`. -/
def pairMatch (cards : List Card) : Option HandMatch :=
  if cards.length == 2 then
    match counts_keys cards with
    | [r] => some ⟨"pair", RANK_VALUE r, [], PatternPriority.NORMAL, 2⟩
    | _ => none
  else none

/-- `Triple.match`. -/
def tripleMatch (cards : List Card) : Option HandMatch :=
  if cards.length == 3 then
    match counts_keys cards with
    | [r] => some ⟨"triple", RANK_VALUE r, [], PatternPriority.NORMAL, 3⟩
    | _ => none
  else none

/-- `TripleWithSingle.match` (`sorted(cnt.values()) == [1, 3]`). -/
def tripleWithSingleMatch (cards : List Card) : Option HandMatch :=
  if cards.length == 4 then
    if counts_values_sorted cards == [1, 3] then
      match (counts_keys cards).filter (fun r => rank_count cards r == 3) with
      | r :: _ => some ⟨"triple_with_single", RANK_VALUE r, [], PatternPriority.NORMAL, 4⟩
      | [] => none
    else none
  else none

/-- `TripleWithPair.match`. -/
def tripleWithPairMatch (cards : List Card) : Option HandMatch :=
  if cards.length == 5 then
    if counts_values_sorted cards == [2, 3] then
      match (counts_keys cards).filter (fun r => rank_count cards r == 3) with
      | r :: _ => some ⟨"triple_with_pair", RANK_VALUE r, [], PatternPriority.NORMAL, 5⟩
      | [] => none
    else none
  else none

/-- `Sequence.match`: at least 5 cards, all ranks distinct, consecutive. -/
def sequenceMatch (cards : List Card) : Option HandMatch :=
  if cards.length ≥ 5 then
    let ranks := rank_list (sort_cards cards)
    if ranks.Nodup ∧ is_consecutive ranks then
      match ranks.getLast? with
      | some last =>
          some ⟨"sequence", RANK_VALUE last, [("length", ranks.length)],
                PatternPriority.NORMAL, ranks.length⟩
      | none => none
    else none
  else none

/-- Rank order used by `sorted(cnt.keys(), key=RANK_VALUE)`. -/
def rankLe (a b : String) : Prop := RANK_VALUE a ≤ RANK_VALUE b

instance : DecidableRel rankLe := fun a b => by unfold rankLe; infer_instance

instance : IsTotal String rankLe :=
  ⟨fun a b => le_total (RANK_VALUE a) (RANK_VALUE b)⟩

instance : IsTrans String rankLe :=
  ⟨fun _ _ _ h h' => le_trans h h'⟩

/-- Sorted key list `sorted(cnt.keys(), key=RANK_VALUE)`. -/
def sortedRankKeys (cards : List Card) : List String :=
  List.insertionSort rankLe (counts_keys cards)

/-- `PairSequence.match`. -/
def pairSequenceMatch (cards : List Card) : Option HandMatch :=
  if cards.length ≥ 6 ∧ cards.length % 2 == 0 then
    if (counts_keys cards).all (fun r => rank_count cards r == 2) then
      let seq := sortedRankKeys cards
      if is_consecutive seq then
        match seq.getLast? with
        | some last =>
            some ⟨"pair_sequence", RANK_VALUE last, [("length_pairs", cards.length / 2)],
                  PatternPriority.NORMAL, cards.length⟩
        | none => none
      else none
    else none
  else none

/-- `TripleSequence.match`. -/
def tripleSequenceMatch (cards : List Card) : Option HandMatch :=
  if cards.length ≥ 6 ∧ cards.length % 3 == 0 then
    if (counts_keys cards).all (fun r => rank_count cards r == 3) then
      let seq := sortedRankKeys cards
      if is_consecutive seq then
        match seq.getLast? with
        | some last =>
            some ⟨"triple_sequence", RANK_VALUE last, [("length_triples", cards.length / 3)],
                  PatternPriority.NORMAL, cards.length⟩
        | none => none
      else none
    else none
  else none

/-- `FourWithTwoSingles.match`. -/
def fourWithTwoSinglesMatch (cards : List Card) : Option HandMatch :=
  if cards.length == 6 then
    if counts_values_sorted cards == [1, 1, 4] then
      match (counts_keys cards).filter (fun r => rank_count cards r == 4) with
      | r :: _ => some ⟨"four_with_two_singles", RANK_VALUE r, [], PatternPriority.STRONG, 6⟩
      | [] => none
    else none
  else none

/-- `FourWithTwoPairs.match`. -/
def fourWithTwoPairsMatch (cards : List Card) : Option HandMatch :=
  if cards.length == 8 then
    if counts_values_sorted cards == [2, 2, 4] then
      match (counts_keys cards).filter (fun r => rank_count cards r == 4) with
      | r :: _ => some ⟨"four_with_two_pairs", RANK_VALUE r, [], PatternPriority.STRONG, 8⟩
      | [] => none
    else none
  else none

/-- Default `HandPattern.same_shape`: name equality. -/
def defaultSameShape (a b : HandMatch) : Bool := a.name == b.name

/-- `Sequence.same_shape`: names and `meta["length"]` agree. -/
def sequenceSameShape (a b : HandMatch) : Bool :=
  a.name == b.name && a.meta.lookup "length" == b.meta.lookup "length"

/-- `PairSequence.same_shape`. -/
def pairSequenceSameShape (a b : HandMatch) : Bool :=
  a.name == b.name && a.meta.lookup "length_pairs" == b.meta.lookup "length_pairs"

/-- `TripleSequence.same_shape`. -/
def tripleSequenceSameShape (a b : HandMatch) : Bool :=
  a.name == b.name && a.meta.lookup "length_triples" == b.meta.lookup "length_triples"

/-- `BUILTIN_PATTERNS`, in registration order. -/
def BUILTIN_PATTERNS : List HandPattern :=
  [⟨"joker_bomb", PatternPriority.JOKER_BOMB, jokerBombMatch, defaultSameShape⟩,
   ⟨"bomb", PatternPriority.BOMB, bombMatch, defaultSameShape⟩,
   ⟨"four_with_two_pairs", PatternPriority.STRONG, fourWithTwoPairsMatch, defaultSameShape⟩,
   ⟨"four_with_two_singles", PatternPriority.STRONG, fourWithTwoSinglesMatch, defaultSameShape⟩,
   ⟨"triple_sequence", PatternPriority.NORMAL, tripleSequenceMatch, tripleSequenceSameShape⟩,
   ⟨"pair_sequence", PatternPriority.NORMAL, pairSequenceMatch, pairSequenceSameShape⟩,
   ⟨"sequence", PatternPriority.NORMAL, sequenceMatch, sequenceSameShape⟩,
   ⟨"triple_with_pair", PatternPriority.NORMAL, tripleWithPairMatch, defaultSameShape⟩,
   ⟨"triple_with_single", PatternPriority.NORMAL, tripleWithSingleMatch, defaultSameShape⟩,
   ⟨"triple", PatternPriority.NORMAL, tripleMatch, defaultSameShape⟩,
   ⟨"pair", PatternPriority.NORMAL, pairMatch, defaultSameShape⟩,
   ⟨"single", PatternPriority.NORMAL, singleMatch, defaultSameShape⟩]

end Pattern

namespace Registry

/-! ## core/registry.py -/

open Cards Pattern

/-- Python tuple comparison `(m.priority, m.key) > (best.priority, best.key)`
(lexicographic, strict). -/
def tupleGt (a b : Nat × Nat) : Bool := b.1 < a.1 || (a.1 == b.1 && b.2 < a.2)

/-- The `best is None or (m.priority, m.key) > (best.priority, best.key)`
update in the loop of `HandRegistry.evaluate`. -/
def betterOf (best : Option HandMatch) (m : HandMatch) : Option HandMatch :=
  match best with
  | none => some m
  | some b => if tupleGt (m.priority, m.key) (b.priority, b.key) then some m else some b

/-- Loop of `HandRegistry.evaluate`, recursing over the pattern list with
the running best match. -/
def evalGo (cards : List Card) (best : Option HandMatch) :
    List HandPattern → Option HandMatch
  | [] => best
  | p :: ps =>
      match p.matchFn cards with
      | none => evalGo cards best ps
      | some m => evalGo cards (betterOf best m) ps

/-- `HandRegistry.evaluate`: best matching pattern, by `(priority, key)`. -/
def evaluate (patterns : List HandPattern) (cards : List Card) : Option HandMatch :=
  evalGo cards none patterns

/-- `HandRegistry._find`: first registered pattern with the given name. -/
def findPattern (patterns : List HandPattern) (name : String) : Option HandPattern :=
  patterns.find? (fun p => p.name == name)

/-- `HandRegistry.can_beat`. -/
def can_beat (patterns : List HandPattern) (current last : List Card) : Bool :=
  match evaluate patterns current, evaluate patterns last with
  | some ca, some cb =>
      if ca.name ≠ cb.name then decide (ca.priority > cb.priority)
      else
        match findPattern patterns ca.name, findPattern patterns cb.name with
        | some ap, some _ => if ap.same_shape ca cb then decide (ca.key > cb.key) else false
        | _, _ => false
  | _, _ => false

end Registry

namespace Ledger

/-! ## core/ledger.py

The SHA-256 digest and the canonical JSON encoding
(`json.dumps(event, sort_keys=True)`) are injective black boxes to the
chain logic, so the embedding abstracts them as parameters `H` (digest of
`prev_hash` concatenated with the encoded record) and `enc` (canonical
sorted-key encoding of the non-hash fields).  The payload dict is opaque
and kept as a `String`.  A log line that fails `json.loads` is `none`. -/

/-- The non-hash fields `{seq, type, payload, ts}` of a record. -/
structure RecCore where
  seq : Nat
  type : String
  payload : String
  ts : String
deriving DecidableEq, Repr

/-- A full persisted record (`LedgerEvent`). -/
structure LRecord where
  core : RecCore
  prev_hash : String
  hash : String
deriving DecidableEq, Repr

/-- `_hash_record(prev_hash, event)`: digest of the previous hash and the
canonical encoding of the record's non-hash fields. -/
def hash_record (H : String → String → String) (enc : RecCore → String)
    (prev : String) (core : RecCore) : String :=
  H prev (enc core)

/-- The recomputed hash chain: `hash(n) = H(hash(n-1), enc(core n))`,
starting from the empty sentinel handed in as `prev`. -/
def chainHashes (H : String → String → String) (enc : RecCore → String)
    (prev : String) : List RecCore → List String
  | [] => []
  | c :: cs =>
      let h := hash_record H enc prev c
      h :: chainHashes H enc h cs

/-- In-memory ledger state: `_seq`, `_last_hash` and the file contents
(one parsed-or-unparsable line per element). -/
structure LedgerSt where
  seq : Nat
  last_hash : String
  file : List (Option LRecord)
deriving Repr

/-- A fresh ledger over a nonexistent file. -/
def ledgerInit : LedgerSt := ⟨0, "", []⟩

/-- `Ledger.append(etype, payload)`: next seq, hash from the tail hash and
the canonical encoding, one written line, advanced tail state.  The
timestamp produced by `_now_iso()` is an input. -/
def append (H : String → String → String) (enc : RecCore → String)
    (st : LedgerSt) (etype : String) (payload : String) (ts : String) :
    LedgerSt × LRecord :=
  let seq := st.seq + 1
  let core : RecCore := ⟨seq, etype, payload, ts⟩
  let recHash := hash_record H enc st.last_hash core
  let full : LRecord := ⟨core, st.last_hash, recHash⟩
  (⟨seq, recHash, st.file ++ [some full]⟩, full)

/-- Fold a list of `(type, payload, ts)` entries through `append`. -/
def appendAll (H : String → String → String) (enc : RecCore → String)
    (st : LedgerSt) : List (String × String × String) → LedgerSt
  | [] => st
  | (t, p, ts) :: rest => appendAll H enc (append H enc st t p ts).1 rest

/-- The resume scan in `Ledger.__init__`: recover `_seq` and `_last_hash`
from the last parsable line, skipping lines that fail to parse
(`except Exception: continue`). -/
def initScan (acc : Nat × String) : List (Option LRecord) → Nat × String
  | [] => acc
  | none :: rest => initScan acc rest
  | some r :: rest => initScan (r.core.seq, r.hash) rest

/-- How `read_all` fails: `json.loads` raising on an unparsable line, or
the `ValueError("Ledger corrupted at seq …")` carrying the sequence
number of the mismatching record. -/
inductive ReadError where
  | parseFailure : ReadError
  | corrupted (seq : Nat) : ReadError
deriving DecidableEq, Repr

/-- The loop of `Ledger.read_all`: recompute the expected hash from the
previous *stored* hash, fail at the first mismatch, accumulate records. -/
def read_allGo (H : String → String → String) (enc : RecCore → String)
    (prev : String) : List (Option LRecord) → Except ReadError (List LRecord)
  | [] => Except.ok []
  | none :: _ => Except.error ReadError.parseFailure
  | some r :: rest =>
      let expected := hash_record H enc prev r.core
      if expected ≠ r.hash then Except.error (ReadError.corrupted r.core.seq)
      else
        match read_allGo H enc r.hash rest with
        | Except.ok out => Except.ok (r :: out)
        | Except.error e => Except.error e

/-- `Ledger.read_all`: full linear scan from the empty sentinel. -/
def read_all (H : String → String → String) (enc : RecCore → String)
    (file : List (Option LRecord)) : Except ReadError (List LRecord) :=
  read_allGo H enc "" file

/-- The records `N` sequential appends starting from tail hash `prev` and
sequence number `seqStart` write to the file. -/
def mkRecords (H : String → String → String) (enc : RecCore → String)
    (prev : String) (seqStart : Nat) : List (String × String × String) → List LRecord
  | [] => []
  | (t, p, ts) :: rest =>
      let core : RecCore := ⟨seqStart + 1, t, p, ts⟩
      let h := hash_record H enc prev core
      ⟨core, prev, h⟩ :: mkRecords H enc h (seqStart + 1) rest

/-- The tail hash after a run of records (`prev` if there are none). -/
def tailHash (prev : String) : List LRecord → String
  | [] => prev
  | r :: rest => tailHash r.hash rest

/-- A run of parsed records whose stored hashes all match the recomputed
chain continuing from `prev`. -/
def ChainedFrom (H : String → String → String) (enc : RecCore → String)
    (prev : String) : List LRecord → Prop
  | [] => True
  | r :: rest => r.hash = hash_record H enc prev r.core ∧ ChainedFrom H enc r.hash rest

/-- Concrete injective-enough digest used by witnesses. -/
def demoH (p e : String) : String := p ++ "#" ++ e

/-- Concrete canonical encoding used by witnesses. -/
def demoEnc (c : RecCore) : String :=
  toString c.seq ++ "|" ++ c.type ++ "|" ++ c.payload ++ "|" ++ c.ts

lemma appendAll_eq (H : String → String → String) (enc : RecCore → String) :
    ∀ (entries : List (String × String × String)) (n : Nat) (ph : String)
      (file : List (Option LRecord)),
      appendAll H enc ⟨n, ph, file⟩ entries =
        ⟨n + entries.length, tailHash ph (mkRecords H enc ph n entries),
         file ++ (mkRecords H enc ph n entries).map some⟩ := by
  intro entries
  induction entries with
  | nil => intro n ph file; simp [appendAll, mkRecords, tailHash]
  | cons e rest ih =>
      rcases e with ⟨t, p, ts⟩
      intro n ph file
      simp only [appendAll, append]
      rw [ih]
      simp only [mkRecords, tailHash, List.map_cons, List.length_cons, hash_record,
        LedgerSt.mk.injEq]
      exact ⟨by omega, trivial, by simp⟩

lemma mkRecords_chained (H : String → String → String) (enc : RecCore → String) :
    ∀ (entries : List (String × String × String)) (n : Nat) (prev : String),
      ChainedFrom H enc prev (mkRecords H enc prev n entries) := by
  intro entries
  induction entries with
  | nil => intro n prev; trivial
  | cons e rest ih =>
      rcases e with ⟨t, p, ts⟩
      intro n prev
      exact ⟨rfl, ih (n + 1) _⟩

/-- `read_allGo` succeeds on a fully chained, fully parsable run and
returns exactly those records. -/
lemma read_allGo_chained (H : String → String → String) (enc : RecCore → String) :
    ∀ (recs : List LRecord) (prev : String), ChainedFrom H enc prev recs →
      read_allGo H enc prev (recs.map some) = Except.ok recs := by
  intro recs
  induction recs with
  | nil => intro prev _; rfl
  | cons r rest ih =>
      rintro prev ⟨h1, h2⟩
      simp only [List.map_cons, read_allGo]
      rw [if_neg (by simp [h1]), ih r.hash h2]

/-- `read_allGo` hits the first mismatching record: a chained prefix, then
a parsable record whose stored hash disagrees with the hash recomputed
from the stored tail hash, errors with that record's sequence number. -/
lemma read_allGo_first_mismatch (H : String → String → String) (enc : RecCore → String) :
    ∀ (pre : List LRecord) (prev : String) (r : LRecord) (rest : List (Option LRecord)),
      ChainedFrom H enc prev pre →
      r.hash ≠ hash_record H enc (tailHash prev pre) r.core →
      read_allGo H enc prev (pre.map some ++ some r :: rest) =
        Except.error (ReadError.corrupted r.core.seq) := by
  intro pre
  induction pre with
  | nil =>
      intro prev r rest _ hbad
      simp only [List.map_nil, List.nil_append, read_allGo]
      rw [if_pos (by simpa [tailHash, eq_comm] using hbad)]
  | cons q pre ih =>
      rintro prev r rest ⟨h1, h2⟩ hbad
      simp only [List.map_cons, List.cons_append, read_allGo, List.append_eq]
      rw [if_neg (by simp [h1]), ih q.hash r rest h2 (by simpa [tailHash] using hbad)]

lemma mkRecords_types (H : String → String → String) (enc : RecCore → String) :
    ∀ (entries : List (String × String × String)) (n : Nat) (prev : String),
      (mkRecords H enc prev n entries).map (fun r => (r.core.type, r.core.payload, r.core.ts)) =
        entries := by
  intro entries
  induction entries with
  | nil => intro n prev; rfl
  | cons e rest ih =>
      rcases e with ⟨t, p, ts⟩
      intro n prev
      simp only [mkRecords, List.map_cons, ih]

lemma mkRecords_seqs (H : String → String → String) (enc : RecCore → String) :
    ∀ (entries : List (String × String × String)) (n : Nat) (prev : String),
      (mkRecords H enc prev n entries).map (fun r => r.core.seq) =
        List.range' (n + 1) entries.length := by
  intro entries
  induction entries with
  | nil => intro n prev; rfl
  | cons e rest ih =>
      rcases e with ⟨t, p, ts⟩
      intro n prev
      simp only [mkRecords, List.map_cons, List.length_cons, List.range'_succ, ih]

lemma mkRecords_hashes (H : String → String → String) (enc : RecCore → String) :
    ∀ (entries : List (String × String × String)) (n : Nat) (prev : String),
      (mkRecords H enc prev n entries).map LRecord.hash =
        chainHashes H enc prev ((mkRecords H enc prev n entries).map LRecord.core) := by
  intro entries
  induction entries with
  | nil => intro n prev; rfl
  | cons e rest ih =>
      rcases e with ⟨t, p, ts⟩
      intro n prev
      simp only [mkRecords, List.map_cons, chainHashes]
      exact congrArg _ (ih (n + 1) _)

end Ledger

section ClaimC1

open Ledger

/-- **C1**: for every sequence of `N` appends to a fresh ledger,
`read_all` succeeds and returns the `N` events in append order — their
`(type, payload, ts)` fields are exactly the appended ones, their sequence
numbers are `1..N`, and their stored hashes equal the recomputed chain
`hash(n) = H(hash(n-1), enc(seq, type, payload, ts))` from the empty
sentinel; and on any file whose records parse, a chained prefix followed
by a record whose stored hash mismatches the recomputed one makes
`read_all` fail exactly there, naming that record's sequence number. -/
theorem C1_ledger_chain_integrity (H : String → String → String)
    (enc : RecCore → String) (entries : List (String × String × String)) :
    (∃ recs, read_all H enc (appendAll H enc ledgerInit entries).file = Except.ok recs ∧
       recs.map (fun r => (r.core.type, r.core.payload, r.core.ts)) = entries ∧
       recs.map (fun r => r.core.seq) = List.range' 1 entries.length ∧
       recs.map LRecord.hash = chainHashes H enc "" (recs.map LRecord.core)) ∧
    (∀ (pre : List LRecord) (r : LRecord) (rest : List (Option LRecord)),
       ChainedFrom H enc "" pre →
       r.hash ≠ hash_record H enc (tailHash "" pre) r.core →
       read_all H enc (pre.map some ++ some r :: rest) =
         Except.error (ReadError.corrupted r.core.seq)) := by
  constructor
  · refine ⟨mkRecords H enc "" 0 entries, ?_, mkRecords_types H enc entries 0 "",
      mkRecords_seqs H enc entries 0 "", mkRecords_hashes H enc entries 0 ""⟩
    have hfile : (appendAll H enc ledgerInit entries).file =
        (mkRecords H enc "" 0 entries).map some := by
      rw [show ledgerInit = LedgerSt.mk 0 "" [] from rfl, appendAll_eq]
      simp
    rw [hfile]
    exact read_allGo_chained H enc _ "" (mkRecords_chained H enc entries 0 "")
  · intro pre r rest hch hbad
    exact read_allGo_first_mismatch H enc pre "" r rest hch hbad

/-- Witness for C1: two concrete appends verify and read back; a concrete
mismatching second record fails at seq 2. -/
theorem C1_ledger_chain_integrity_witness :
    (∃ recs,
       read_all demoH demoEnc
         (appendAll demoH demoEnc ledgerInit
           [("GAME_START", "pl", "t1"), ("DEAL", "pd", "t2")]).file = Except.ok recs ∧
       recs.map (fun r => (r.core.type, r.core.payload, r.core.ts)) =
         [("GAME_START", "pl", "t1"), ("DEAL", "pd", "t2")] ∧
       recs.map (fun r => r.core.seq) = List.range' 1 2 ∧
       recs.map LRecord.hash = chainHashes demoH demoEnc "" (recs.map LRecord.core)) ∧
    read_all demoH demoEnc
        [some ⟨⟨1, "GAME_START", "pl", "t1"⟩, "", demoH "" (demoEnc ⟨1, "GAME_START", "pl", "t1"⟩)⟩,
         some ⟨⟨2, "DEAL", "pd", "t2"⟩, "x", "bad"⟩] =
      Except.error (ReadError.corrupted 2) := by
  constructor
  · exact (C1_ledger_chain_integrity demoH demoEnc
      [("GAME_START", "pl", "t1"), ("DEAL", "pd", "t2")]).1
  · exact (C1_ledger_chain_integrity demoH demoEnc []).2
      [⟨⟨1, "GAME_START", "pl", "t1"⟩, "", demoH "" (demoEnc ⟨1, "GAME_START", "pl", "t1"⟩)⟩]
      ⟨⟨2, "DEAL", "pd", "t2"⟩, "x", "bad"⟩ []
      ⟨rfl, trivial⟩ (by decide)

end ClaimC1

namespace Ledger

/-- `read_allGo` walks through a chained, parsable prefix and continues
from its tail hash, prepending the prefix records on success. -/
lemma read_allGo_chained_prefix (H : String → String → String) (enc : RecCore → String) :
    ∀ (pre : List LRecord) (prev : String) (rest : List (Option LRecord)),
      ChainedFrom H enc prev pre →
      read_allGo H enc prev (pre.map some ++ rest) =
        match read_allGo H enc (tailHash prev pre) rest with
        | Except.ok out => Except.ok (pre ++ out)
        | Except.error e => Except.error e := by
  intro pre
  induction pre with
  | nil =>
      intro prev rest _
      simp only [List.map_nil, List.nil_append, tailHash]
      cases read_allGo H enc prev rest <;> simp
  | cons q pre ih =>
      rintro prev rest ⟨h1, h2⟩
      simp only [List.map_cons, List.cons_append, read_allGo, List.append_eq]
      rw [if_neg (by simp [h1]), ih q.hash rest h2]
      simp only [tailHash]
      cases read_allGo H enc (tailHash q.hash pre) rest <;> simp

lemma initScan_append_none (acc : Nat × String) :
    ∀ lines : List (Option LRecord),
      initScan acc (lines ++ [none]) = initScan acc lines := by
  intro lines
  induction lines generalizing acc with
  | nil => rfl
  | cons l rest ih =>
      cases l <;> simp only [List.cons_append, initScan] <;> exact ih _

end Ledger

section ClaimC2

open Ledger

/-- **C2 counterexample**: a two-line log whose *final* record is
hash-mismatched.  The claim says the verified read used for replay skips
that final record (so it would return the one good record); instead
`read_all` raises chain corruption naming seq 2. -/
theorem C2_counterexample_final_mismatch_is_corruption :
    read_all demoH demoEnc
        [some ⟨⟨1, "GAME_START", "pl", "t1"⟩, "",
               demoH "" (demoEnc ⟨1, "GAME_START", "pl", "t1"⟩)⟩,
         some ⟨⟨2, "PLAY", "pp", "t2"⟩, "y", "tampered"⟩] =
      Except.error (ReadError.corrupted 2) ∧
    ∀ recs, read_all demoH demoEnc
        [some ⟨⟨1, "GAME_START", "pl", "t1"⟩, "",
               demoH "" (demoEnc ⟨1, "GAME_START", "pl", "t1"⟩)⟩,
         some ⟨⟨2, "PLAY", "pp", "t2"⟩, "y", "tampered"⟩] ≠
      Except.ok recs := by
  refine ⟨by rfl, ?_⟩
  intro recs h
  rw [show read_all demoH demoEnc
      [some ⟨⟨1, "GAME_START", "pl", "t1"⟩, "",
             demoH "" (demoEnc ⟨1, "GAME_START", "pl", "t1"⟩)⟩,
       some ⟨⟨2, "PLAY", "pp", "t2"⟩, "y", "tampered"⟩] =
      Except.error (ReadError.corrupted 2) from by rfl] at h
  cases h

/-- **C2 amended**: `read_all` — the verified read `rebuild` replays from —
treats a hash mismatch at the *final* record exactly like any other
corruption (it raises naming that record's sequence number) and raises a
parse error on an unparsable final line; only the construction-time
resume scan of `Ledger.__init__` skips unparsable lines. -/
theorem C2_read_all_rejects_final_mismatch (H : String → String → String)
    (enc : RecCore → String) :
    (∀ (pre : List LRecord) (r : LRecord),
       ChainedFrom H enc "" pre →
       r.hash ≠ hash_record H enc (tailHash "" pre) r.core →
       read_all H enc (pre.map some ++ [some r]) =
         Except.error (ReadError.corrupted r.core.seq)) ∧
    (∀ pre : List LRecord,
       ChainedFrom H enc "" pre →
       read_all H enc (pre.map some ++ [none]) =
         Except.error ReadError.parseFailure) ∧
    (∀ lines : List (Option LRecord),
       initScan (0, "") (lines ++ [none]) = initScan (0, "") lines) := by
  refine ⟨?_, ?_, initScan_append_none (0, "")⟩
  · intro pre r hch hbad
    exact read_allGo_first_mismatch H enc pre "" r [] hch hbad
  · intro pre hch
    rw [read_all, read_allGo_chained_prefix H enc pre "" [none] hch]
    rfl

/-- Witness for the amended C2 at concrete inputs. -/
theorem C2_read_all_rejects_final_mismatch_witness :
    read_all demoH demoEnc
        [some ⟨⟨1, "BID", "pb", "t1"⟩, "", demoH "" (demoEnc ⟨1, "BID", "pb", "t1"⟩)⟩,
         some ⟨⟨2, "PASS", "pq", "t2"⟩, "z", "bad2"⟩] =
      Except.error (ReadError.corrupted 2) ∧
    read_all demoH demoEnc
        [some ⟨⟨1, "BID", "pb", "t1"⟩, "", demoH "" (demoEnc ⟨1, "BID", "pb", "t1"⟩)⟩, none] =
      Except.error ReadError.parseFailure := by
  constructor
  · exact (C2_read_all_rejects_final_mismatch demoH demoEnc).1
      [⟨⟨1, "BID", "pb", "t1"⟩, "", demoH "" (demoEnc ⟨1, "BID", "pb", "t1"⟩)⟩]
      ⟨⟨2, "PASS", "pq", "t2"⟩, "z", "bad2"⟩ ⟨rfl, trivial⟩ (by decide)
  · exact (C2_read_all_rejects_final_mismatch demoH demoEnc).2.1
      [⟨⟨1, "BID", "pb", "t1"⟩, "", demoH "" (demoEnc ⟨1, "BID", "pb", "t1"⟩)⟩]
      ⟨rfl, trivial⟩

end ClaimC2

namespace Replay

/-! ## core/replay.py and core/player.py -/

open Cards

/-- `Role` from enums.py. -/
inductive Role where
  | LANDLORD
  | PEASANT
deriving DecidableEq, Repr

/-- `Player` (name, ordered hand, role). -/
structure Player where
  name : String
  cards : List Card
  role : Role
deriving DecidableEq, Repr

/-- An event as the replayer sees it: a type tag and the payload fields
that `rebuild` reads.  Optional dict entries are `Option`s; `payload["players"]`
and `payload["landlord_idx"]` / `payload["player_index"]` are only read on
the event types that carry them. -/
structure REvent where
  type : String
  players : List (Nat × List String) := []
  bottom : List String := []
  landlord_idx : Nat := 0
  player_index : Nat := 0
  codes : Option (List String) := none
  ranks : Option (List String) := none
deriving Repr

/-- Replay's transient game state. -/
structure RState where
  last_play : List Card
  last_player : Option Nat
  current_index : Nat
  landlord_idx : Option Nat
deriving DecidableEq, Repr

/-- Append dealt card codes to seat `i`'s hand (`players[i].cards.append`). -/
def dealTo (players : List Player) (i : Nat) (codes : List String) : List Player :=
  match players.get? i with
  | some p => players.set i { p with cards := p.cards ++ codes.map Card.mk }
  | none => players

/-- The `PLAY` removal loop body: remove the first card whose exact code
or rank matches `code`, returning the shrunk hand and the removed card. -/
def takeFirstMatch : List Card → String → List Card × Option Card
  | [], _ => ([], none)
  | c :: rest, code =>
      if c.code == code || c.rank == code then (rest, some c)
      else
        let (rest', found) := takeFirstMatch rest code
        (c :: rest', found)

/-- Apply the whole `for code in codes` removal loop. -/
def takeAllMatches (hand : List Card) : List String → List Card × List Card
  | [] => (hand, [])
  | code :: codes =>
      match takeFirstMatch hand code with
      | (hand', some c) =>
          let (hand'', tmp) := takeAllMatches hand' codes
          (hand'', c :: tmp)
      | (hand', none) =>
          let (hand'', tmp) := takeAllMatches hand' codes
          (hand'', tmp)

/-- One iteration of the `for e in events` loop in `rebuild`. -/
def rstep (acc : List Player × RState) (e : REvent) : List Player × RState :=
  let (players, st) := acc
  if e.type == "DEAL" then
    let players := e.players.foldl (fun ps (pr : Nat × List String) => dealTo ps pr.1 pr.2) players
    (players.map (fun p => { p with cards := sort_cards p.cards }), st)
  else if e.type == "SET_LANDLORD" then
    let li := e.landlord_idx
    let players := dealTo players li e.bottom
    let players :=
      match players.get? li with
      | some p => players.set li { p with cards := sort_cards p.cards }
      | none => players
    let players := players.mapIdx (fun i p =>
      { p with role := if i == li then Role.LANDLORD else Role.PEASANT })
    (players, { st with landlord_idx := some li, current_index := li })
  else if e.type == "PLAY" then
    let idx := e.player_index
    let codes :=
      match e.codes with
      | some cs => if cs.isEmpty then e.ranks.getD [] else cs
      | none => e.ranks.getD []
    match players.get? idx with
    | some p =>
        let (hand', tmp) := takeAllMatches p.cards codes
        let players := players.set idx { p with cards := hand' }
        (players, { st with last_play := tmp, last_player := some idx,
                            current_index := (idx + 1) % players.length })
    | none => (players, st)
  else if e.type == "PASS" then
    (players, { st with current_index := (e.player_index + 1) % players.length })
  else if e.type == "ROUND_RESET" then
    (players, { st with last_play := [], last_player := none })
  else
    (players, st)

/-- `rebuild(players, ledger)` on an already-verified event list: reset all
hands and roles, then fold the events in order. -/
def rebuild (players : List Player) (events : List REvent) : List Player × RState :=
  let players := players.map (fun p => { p with cards := [], role := Role.PEASANT })
  events.foldl rstep (players, ⟨[], none, 0, none⟩)

end Replay

namespace Game

/-! ## game.py (the PASS / PLAY command handling of `Game.play`) and the
hand operations of core/player.py used by it.  The game is fixed at three
seats (`len(names) != 3` is rejected in `Game.__init__`), and
`passes_needed = rules.passes_to_reset() = 2`. -/

open Cards Pattern Registry Replay

/-- `TOKEN_NORMALIZATION` from cards.py (keys as written: lower case). -/
def TOKEN_NORMALIZATION : List (String × String) :=
  [("j", "J"), ("q", "Q"), ("k", "K"), ("a", "A"), ("t", "10"),
   ("1", "A"), ("01", "A"), ("bj", "BJ"), ("rj", "RJ")]

/-- `tok.strip()`: drop leading and trailing whitespace (embedded on the
character list so it evaluates structurally). -/
def strip (s : String) : String :=
  String.mk (((s.toList.dropWhile Char.isWhitespace).reverse.dropWhile
    Char.isWhitespace).reverse)

/-- `tok.upper()` (embedded on the character list). -/
def upper (s : String) : String := String.mk (s.toList.map Char.toUpper)

/-- `normalize_token`: strip, upper-case, then look up the (lower-cased
keyed) table, falling back to the upper-cased token. -/
def normalize_token (tok : String) : String :=
  let t := upper (strip tok)
  (TOKEN_NORMALIZATION.lookup t).getD t

/-- `Player.has_cards`: multiset containment of the normalized rank tokens
in the hand's rank tokens. -/
def has_cards (hand : List Card) (ranks : List String) : Bool :=
  let target := ranks.map normalize_token
  target.dedup.all (fun r => decide ((rank_list hand).count r ≥ target.count r))

/-- Remove the first card of the given rank from the hand. -/
def takeFirstRank : List Card → String → List Card × Option Card
  | [], _ => ([], none)
  | c :: rest, r =>
      if c.rank == r then (rest, some c)
      else
        let (rest', found) := takeFirstRank rest r
        (c :: rest', found)

/-- `Player.take_cards`: remove the first matching instance of each
normalized rank token, returning the new hand and the taken cards. -/
def take_cards (hand : List Card) (ranks : List String) : List Card × List Card :=
  let req := ranks.map normalize_token
  req.foldl (fun (acc : List Card × List Card) r =>
    match takeFirstRank acc.1 r with
    | (hand', some c) => (hand', acc.2 ++ [c])
    | (hand', none) => (hand', acc.2)) (hand, [])

/-- `Game._pick_from_hand`: pick cards by raw rank tokens from a copy of
the hand, without mutating it. -/
def pick_from_hand (hand : List Card) (ranks : List String) : List Card :=
  (ranks.foldl (fun (acc : List Card × List Card) r =>
    match takeFirstRank acc.1 r with
    | (hand', some c) => (hand', acc.2 ++ [c])
    | (hand', none) => (hand', acc.2)) (hand, [])).2

/-- `RuleSet.can_play`: any classifiable combination opens a trick,
otherwise `can_beat` must hold. -/
def can_play (current last : List Card) : Bool :=
  if last.isEmpty then (evaluate BUILTIN_PATTERNS current).isSome
  else can_beat BUILTIN_PATTERNS current last

/-- The mutable state of the `Game.play` loop (3 seats).  `events` keeps
the types of the ledger events appended, in order; `over` is set when the
loop breaks after a win. -/
structure GameSt where
  hands : List (List Card)
  turn_index : Nat
  last_play : List Card
  last_player : Option Nat
  passes_in_row : Nat
  events : List String
  over : Bool
deriving Repr

/-- The `pass` command branch of `Game.play`.  `none` = rejected (the
loop prints and re-prompts, state unchanged).  `passes_needed = 2`. -/
def passAction (st : GameSt) : Option GameSt :=
  if st.last_play.isEmpty || st.last_player == some st.turn_index then none
  else if 2 ≤ st.passes_in_row + 1 then
    some { st with
           last_play := []
           last_player := none
           passes_in_row := 0
           events := st.events ++ ["PASS", "ROUND_RESET"]
           turn_index := (st.turn_index + 1) % 3 }
  else
    some { st with
           passes_in_row := st.passes_in_row + 1
           events := st.events ++ ["PASS"]
           turn_index := (st.turn_index + 1) % 3 }

/-- The acting seat's hand (`p = self.players[self.turn_index]`). -/
def curHand (st : GameSt) : List Card := st.hands.getD st.turn_index []

/-- The parse step `ranks = [normalize_token(t) for t in cmd.split()]`. -/
def parseRanks (tokens : List String) : List String := tokens.map normalize_token

/-- The play branch of `Game.play` for a typed command split into tokens:
parse/normalize, ownership check, classification, beat check, then commit
(remove cards, update last play, log PLAY, detect win, advance turn).
`none` = rejected with a message, state unchanged. -/
def playAction (st : GameSt) (tokens : List String) : Option GameSt :=
  if (parseRanks tokens).isEmpty then none
  else if ¬ has_cards (curHand st) (parseRanks tokens) then none
  else
    match evaluate BUILTIN_PATTERNS (pick_from_hand (curHand st) (parseRanks tokens)) with
    | none => none
    | some _ =>
        if ¬ st.last_play.isEmpty ∧ st.last_player ≠ some st.turn_index ∧
            can_play (pick_from_hand (curHand st) (parseRanks tokens)) st.last_play = false then
          none
        else
          some { hands := st.hands.set st.turn_index
                   (take_cards (curHand st) (parseRanks tokens)).1,
                 turn_index := if (take_cards (curHand st) (parseRanks tokens)).1.isEmpty then
                     st.turn_index
                   else (st.turn_index + 1) % 3,
                 last_play := (take_cards (curHand st) (parseRanks tokens)).2,
                 last_player := some st.turn_index,
                 passes_in_row := 0,
                 events := st.events ++ ["PLAY"] ++
                   (if (take_cards (curHand st) (parseRanks tokens)).1.isEmpty then
                     ["GAME_END"] else []),
                 over := (take_cards (curHand st) (parseRanks tokens)).1.isEmpty }

/-- The loop state right after `setup()`: landlord leads a fresh trick. -/
def initGame (hands : List (List Card)) (landlord : Nat) : GameSt :=
  { hands := hands, turn_index := landlord, last_play := [], last_player := none,
    passes_in_row := 0, events := [], over := false }

/-- States the `Game.play` loop can reach from a post-setup start. -/
inductive Reach : GameSt → Prop where
  | init (hands : List (List Card)) (landlord : Nat) (h : landlord < 3) :
      Reach (initGame hands landlord)
  | play {st st'} (tokens : List String) :
      Reach st → st.over = false → playAction st tokens = some st' → Reach st'
  | pass {st st'} :
      Reach st → st.over = false → passAction st = some st' → Reach st'

end Game

namespace Rules

/-! ## core/rules.py — `StandardDouDizhuRules._bidding`.

`random.randrange(0, 3)` results (the starting seat and the no-bid
fallback seat) are inputs; the bids returned by the controller are an
input list aligned with the seating order. -/

open Replay

/-- The fold inside the bidding loop: strict `bid > highest` updates
`highest, winner`. -/
def bidStep (acc : Int × Option Nat) (p : Nat × Int) : Int × Option Nat :=
  if p.2 > acc.1 then (p.2, some p.1) else acc

/-- The loop of `_bidding` over `order = [(start+i) % 3 for i in range(3)]`
zipped with the controller's bids, starting from `highest = -1`,
`winner = None`. -/
def biddingFold (start : Nat) (bids : List Int) : Int × Option Nat :=
  (([(start + 0) % 3, (start + 1) % 3, (start + 2) % 3].zip bids).foldl bidStep (-1, none))

/-- The `if highest <= 0 or winner is None: winner = random.randrange(0, 3)`
resolution (`fallback` stands for the random draw). -/
def biddingWinner (start : Nat) (bids : List Int) (fallback : Nat) : Nat :=
  if (biddingFold start bids).1 ≤ 0 ∨ (biddingFold start bids).2 = none then fallback
  else (biddingFold start bids).2.getD 0

/-- `_bidding`: seats bid in order from `start`; an out-of-range bid
raises `ValueError`; the first strictly-highest bidder wins; if no bid is
positive the `fallback` seat is chosen at random.  Returns the landlord
index and the resulting role of each seat. -/
def bidding (start : Nat) (bids : List Int) (fallback : Nat) :
    Except String (Nat × (Nat → Role)) :=
  if bids.any (fun b => b < 0 || b > 3) then
    Except.error "Bidding controller must return 0-3"
  else
    Except.ok (biddingWinner start bids fallback,
      fun i => if i = biddingWinner start bids fallback then Role.LANDLORD else Role.PEASANT)

end Rules

namespace Replay

/-- A fresh three-seat player list used by replay witnesses. -/
def demoPlayers : List Player :=
  [⟨"A", [], Role.PEASANT⟩, ⟨"B", [], Role.PEASANT⟩, ⟨"C", [], Role.PEASANT⟩]

/-- An event whose type none of `rebuild`'s branches handles leaves the
fold state untouched. -/
lemma rstep_unknown (acc : List Player × RState) (e : REvent)
    (h : e.type ∉ (["DEAL", "SET_LANDLORD", "PLAY", "PASS", "ROUND_RESET"] : List String)) :
    rstep acc e = acc := by
  simp only [List.mem_cons, List.not_mem_nil, or_false, not_or] at h
  obtain ⟨h1, h2, h3, h4, h5⟩ := h
  rcases acc with ⟨players, st⟩
  simp [rstep, h1, h2, h3, h4, h5]

end Replay

section ClaimC5

open Cards Replay

/-- **C5 counterexample**: replaying a log that contains an event of a
type the replayer does not recognize succeeds and produces exactly the
state of replaying without it — `rebuild` silently skips the event
instead of failing (it has no failure outcome at all). -/
theorem C5_counterexample_unknown_event_silently_skipped :
    rebuild demoPlayers [{ type := "TOTALLY_UNKNOWN" }] = rebuild demoPlayers [] := by
  rfl

/-- **C5 amended**: during replay, any event whose type is not one of
DEAL, SET_LANDLORD, PLAY, PASS, ROUND_RESET — including GAME_START, BID,
GAME_END and arbitrary unknown types — is silently skipped, leaving the
rebuilt players and state unchanged; replay never fails on it. -/
theorem C5_unknown_events_silently_skipped (players : List Player)
    (pre post : List REvent) (e : REvent)
    (h : e.type ∉ (["DEAL", "SET_LANDLORD", "PLAY", "PASS", "ROUND_RESET"] : List String)) :
    rebuild players (pre ++ e :: post) = rebuild players (pre ++ post) := by
  unfold rebuild
  rw [List.foldl_append, List.foldl_cons, rstep_unknown _ e h, ← List.foldl_append]

/-- Witness for the amended C5: a BOGUS event between two others changes
nothing. -/
theorem C5_unknown_events_silently_skipped_witness :
    rebuild demoPlayers
        [{ type := "GAME_START" }, { type := "BOGUS" }, { type := "PASS", player_index := 0 }] =
      rebuild demoPlayers [{ type := "GAME_START" }, { type := "PASS", player_index := 0 }] :=
  C5_unknown_events_silently_skipped demoPlayers [{ type := "GAME_START" }]
    [{ type := "PASS", player_index := 0 }] { type := "BOGUS" } (by decide)

end ClaimC5

section ClaimC7

open Replay Rules

/-- **C7**: with three in-range bids collected in seating order from the
starting seat and at least one positive bid, `_bidding` names as landlord
the seat of the first bidder to reach the strictly highest bid value
(later equal bids do not overtake), and every other seat becomes a
peasant. -/
theorem C7_bidding_first_highest_wins (start : Nat) (b0 b1 b2 : Int) (fallback : Nat)
    (h0 : 0 ≤ b0 ∧ b0 ≤ 3) (h1 : 0 ≤ b1 ∧ b1 ≤ 3) (h2 : 0 ≤ b2 ∧ b2 ≤ 3)
    (hpos : 0 < max b0 (max b1 b2)) :
    ∃ i w roles,
      bidding start [b0, b1, b2] fallback = Except.ok (w, roles) ∧
      i < 3 ∧ w = (start + i) % 3 ∧
      [b0, b1, b2].getD i 0 = max b0 (max b1 b2) ∧
      (∀ j, j < i → [b0, b1, b2].getD j 0 < max b0 (max b1 b2)) ∧
      roles w = Role.LANDLORD ∧ (∀ k, k ≠ w → roles k = Role.PEASANT) := by
  have hno : ¬(([b0, b1, b2].any (fun b => decide (b < 0) || decide (b > 3))) = true) := by
    simp only [List.any_cons, List.any_nil, Bool.or_false, Bool.or_eq_true,
      decide_eq_true_eq, not_or]
    omega
  have hfold : biddingFold start [b0, b1, b2] =
      if b1 > b0 then
        (if b2 > b1 then ((b2 : Int), some ((start + 2) % 3))
         else (b1, some ((start + 1) % 3)))
      else
        (if b2 > b0 then (b2, some ((start + 2) % 3))
         else (b0, some ((start + 0) % 3))) := by
    unfold biddingFold
    simp only [List.zip, List.zipWith, List.foldl_cons, List.foldl_nil, bidStep]
    rw [if_pos (by omega : b0 > (-1 : Int))]
    by_cases hb1 : b1 > b0
    · rw [if_pos hb1, if_pos hb1]
    · rw [if_neg hb1, if_neg hb1]
  by_cases hb1 : b1 > b0
  · by_cases hb2 : b2 > b1
    · have hw : biddingWinner start [b0, b1, b2] fallback = (start + 2) % 3 := by
        unfold biddingWinner
        rw [hfold, if_pos hb1, if_pos hb2, if_neg (by simp; omega)]
        rfl
      refine ⟨2, (start + 2) % 3, fun i => if i = (start + 2) % 3 then Role.LANDLORD else Role.PEASANT, ?_, by omega, rfl, by simp; omega, ?_, ?_, ?_⟩
      · unfold bidding
        rw [if_neg hno, hw]
      · intro j hj
        interval_cases j <;> simp <;> omega
      · exact if_pos rfl
      · intro k hk
        exact if_neg hk
    · have hw : biddingWinner start [b0, b1, b2] fallback = (start + 1) % 3 := by
        unfold biddingWinner
        rw [hfold, if_pos hb1, if_neg hb2, if_neg (by simp; omega)]
        rfl
      refine ⟨1, (start + 1) % 3, fun i => if i = (start + 1) % 3 then Role.LANDLORD else Role.PEASANT, ?_, by omega, rfl, by simp; omega, ?_, ?_, ?_⟩
      · unfold bidding
        rw [if_neg hno, hw]
      · intro j hj
        interval_cases j <;> simp <;> omega
      · exact if_pos rfl
      · intro k hk
        exact if_neg hk
  · by_cases hb2 : b2 > b0
    · have hw : biddingWinner start [b0, b1, b2] fallback = (start + 2) % 3 := by
        unfold biddingWinner
        rw [hfold, if_neg hb1, if_pos hb2, if_neg (by simp; omega)]
        rfl
      refine ⟨2, (start + 2) % 3, fun i => if i = (start + 2) % 3 then Role.LANDLORD else Role.PEASANT, ?_, by omega, rfl, by simp; omega, ?_, ?_, ?_⟩
      · unfold bidding
        rw [if_neg hno, hw]
      · intro j hj
        interval_cases j <;> simp <;> omega
      · exact if_pos rfl
      · intro k hk
        exact if_neg hk
    · have hw : biddingWinner start [b0, b1, b2] fallback = (start + 0) % 3 := by
        unfold biddingWinner
        rw [hfold, if_neg hb1, if_neg hb2, if_neg (by simp; omega)]
        rfl
      refine ⟨0, (start + 0) % 3, fun i => if i = (start + 0) % 3 then Role.LANDLORD else Role.PEASANT, ?_, by omega, rfl, by simp; omega, ?_, ?_, ?_⟩
      · unfold bidding
        rw [if_neg hno, hw]
      · intro j hj
        omega
      · exact if_pos rfl
      · intro k hk
        exact if_neg hk

/-- Witness for C7 at the spec's end-to-end example: bids `[0, 0, 1]`
from seat 0 make the third bidder (seat 2) the landlord. -/
theorem C7_bidding_first_highest_wins_witness :
    ∃ i w roles,
      bidding 0 [0, 0, 1] 0 = Except.ok (w, roles) ∧
      i < 3 ∧ w = (0 + i) % 3 ∧
      [(0 : Int), 0, 1].getD i 0 = max 0 (max 0 1) ∧
      (∀ j, j < i → [(0 : Int), 0, 1].getD j 0 < max 0 (max 0 1)) ∧
      roles w = Role.LANDLORD ∧ (∀ k, k ≠ w → roles k = Role.PEASANT) :=
  C7_bidding_first_highest_wins 0 0 0 1 0 (by omega) (by omega) (by omega) (by omega)

end ClaimC7

namespace Game

open Cards Pattern Registry

/-- If the acting seat holds a card of rank `r`, the removal loop body
finds and removes one. -/
lemma takeFirstRank_found :
    ∀ (hand : List Card) (r : String), 0 < (rank_list hand).count r →
      ∃ c rest', takeFirstRank hand r = (rest', some c) := by
  intro hand
  induction hand with
  | nil => intro r h; simp [rank_list] at h
  | cons c hs ih =>
      intro r h
      by_cases hc : (c.rank == r) = true
      · exact ⟨c, hs, by simp [takeFirstRank, hc]⟩
      · have hr : c.rank ≠ r := by simpa using hc
        have : 0 < (rank_list hs).count r := by
          simpa [rank_list, List.count_cons, hr] using h
        obtain ⟨c', rest', htf⟩ := ih r this
        exact ⟨c', c :: rest', by simp [takeFirstRank, hc, htf]⟩

/-- The taken-cards accumulator of `take_cards` only grows. -/
lemma take_go_length :
    ∀ (req : List String) (acc : List Card × List Card),
      acc.2.length ≤
        (req.foldl (fun (acc : List Card × List Card) r =>
          match takeFirstRank acc.1 r with
          | (hand', some c) => (hand', acc.2 ++ [c])
          | (hand', none) => (hand', acc.2)) acc).2.length := by
  intro req
  induction req with
  | nil => intro acc; simp
  | cons r rest ih =>
      intro acc
      simp only [List.foldl_cons]
      rcases htf : takeFirstRank acc.1 r with ⟨hand', found⟩
      cases found with
      | none =>
          have := ih (hand', acc.2)
          simpa [htf] using this
      | some c =>
          have := ih (hand', acc.2 ++ [c])
          have hlen : acc.2.length ≤ (acc.2 ++ [c]).length := by simp
          calc acc.2.length ≤ (acc.2 ++ [c]).length := hlen
            _ ≤ _ := by simpa [htf] using this

/-- A nonempty, owned token list takes at least one card:
`take_cards` never returns an empty play. -/
lemma take_cards_snd_ne_nil (hand : List Card) (ranks : List String)
    (hne : ¬(ranks.map normalize_token).isEmpty = true)
    (hc : has_cards hand ranks = true) : (take_cards hand ranks).2 ≠ [] := by
  rcases hreq : ranks.map normalize_token with _ | ⟨r, rest⟩
  · rw [hreq] at hne; simp at hne
  · have hmem : r ∈ ranks.map normalize_token := by rw [hreq]; exact List.mem_cons_self _ _
    have hcount : 0 < (rank_list hand).count r := by
      unfold has_cards at hc
      rw [List.all_eq_true] at hc
      have := hc r (List.mem_dedup.mpr hmem)
      have hge : (ranks.map normalize_token).count r ≥ 1 := by
        rw [hreq]
        simp [List.count_cons]
      simp only [decide_eq_true_eq] at this
      omega
    obtain ⟨c, rest', htf⟩ := takeFirstRank_found hand r hcount
    unfold take_cards
    rw [hreq]
    simp only [List.foldl_cons, htf]
    intro hnil
    have := take_go_length rest (rest', ([] : List Card) ++ [c])
    rw [hnil] at this
    simp at this

/-- Shape of the committed state of an accepted play. -/
lemma playAction_some {st : GameSt} {tokens : List String} {st' : GameSt}
    (h : playAction st tokens = some st') :
    (take_cards (curHand st) (parseRanks tokens)).2 ≠ [] ∧
    st' = { hands := st.hands.set st.turn_index
              (take_cards (curHand st) (parseRanks tokens)).1,
            turn_index := if (take_cards (curHand st) (parseRanks tokens)).1.isEmpty then
                st.turn_index
              else (st.turn_index + 1) % 3,
            last_play := (take_cards (curHand st) (parseRanks tokens)).2,
            last_player := some st.turn_index,
            passes_in_row := 0,
            events := st.events ++ ["PLAY"] ++
              (if (take_cards (curHand st) (parseRanks tokens)).1.isEmpty then
                ["GAME_END"] else []),
            over := (take_cards (curHand st) (parseRanks tokens)).1.isEmpty } := by
  unfold playAction at h
  by_cases h1 : (parseRanks tokens).isEmpty = true
  · rw [if_pos h1] at h; cases h
  · rw [if_neg h1] at h
    by_cases h2 : has_cards (curHand st) (parseRanks tokens) = true
    · rw [if_neg (by simp [h2])] at h
      cases hev : evaluate BUILTIN_PATTERNS (pick_from_hand (curHand st) (parseRanks tokens)) with
      | none => rw [hev] at h; cases h
      | some m =>
          rw [hev] at h
          by_cases h3 : ¬ st.last_play.isEmpty ∧ st.last_player ≠ some st.turn_index ∧
              can_play (pick_from_hand (curHand st) (parseRanks tokens)) st.last_play = false
          · rw [if_pos h3] at h; cases h
          · rw [if_neg h3] at h
            injection h with h
            exact ⟨take_cards_snd_ne_nil _ _ (by simpa using h1) h2, h.symm⟩
    · rw [if_pos (by simpa using h2)] at h
      cases h

/-- Shape of the state after an accepted pass that does not trigger the
trick reset (`passes_in_row + 1 < passes_needed = 2`). -/
lemma passAction_some_no_reset {st st' : GameSt} (h : passAction st = some st')
    (hp : st.passes_in_row + 1 < 2) :
    st' = { st with
            passes_in_row := st.passes_in_row + 1
            events := st.events ++ ["PASS"]
            turn_index := (st.turn_index + 1) % 3 } := by
  unfold passAction at h
  by_cases h1 : (st.last_play.isEmpty || st.last_player == some st.turn_index) = true
  · rw [if_pos h1] at h
    cases h
  · rw [if_neg h1, if_neg (by omega : ¬2 ≤ st.passes_in_row + 1)] at h
    injection h with h
    exact h.symm

/-- Shape of the state after an accepted pass that triggers the reset. -/
lemma passAction_some_reset {st st' : GameSt} (h : passAction st = some st')
    (hp : 2 ≤ st.passes_in_row + 1) :
    st' = { st with
            last_play := []
            last_player := none
            passes_in_row := 0
            events := st.events ++ ["PASS", "ROUND_RESET"]
            turn_index := (st.turn_index + 1) % 3 } := by
  unfold passAction at h
  by_cases h1 : (st.last_play.isEmpty || st.last_player == some st.turn_index) = true
  · rw [if_pos h1] at h
    cases h
  · rw [if_neg h1, if_pos hp] at h
    injection h with h
    exact h.symm

/-- An accepted pass implies the rejection condition was false. -/
lemma passAction_some_cond {st st' : GameSt} (h : passAction st = some st') :
    st.last_play ≠ [] ∧ st.last_player ≠ some st.turn_index := by
  unfold passAction at h
  by_cases h1 : (st.last_play.isEmpty || st.last_player == some st.turn_index) = true
  · rw [if_pos h1] at h
    cases h
  · simp only [Bool.or_eq_true, not_or, Bool.not_eq_true] at h1
    exact ⟨by simpa using h1.1, by simpa using h1.2⟩

/-- The `pass` command is rejected exactly when there is no last play or
the acting seat owns the last play. -/
lemma passAction_none_iff (st : GameSt) :
    passAction st = none ↔
      (st.last_play = [] ∨ st.last_player = some st.turn_index) := by
  unfold passAction
  by_cases h : (st.last_play.isEmpty || st.last_player == some st.turn_index) = true
  · rw [if_pos h]
    simp only [true_iff]
    have h' : st.last_play.isEmpty = true ∨ (st.last_player == some st.turn_index) = true := by
      simpa using h
    rcases h' with h' | h'
    · exact Or.inl (by simpa using h')
    · exact Or.inr (by simpa using h')
  · rw [if_neg h]
    simp only [Bool.or_eq_true, not_or, Bool.not_eq_true] at h
    constructor
    · intro hc
      by_cases hp : 2 ≤ st.passes_in_row + 1
      · rw [if_pos hp] at hc; cases hc
      · rw [if_neg hp] at hc; cases hc
    · rintro (hc | hc)
      · exact absurd (by simp [hc]) (by simp [h.1] : ¬st.last_play.isEmpty = true)
      · exact absurd (by simp [hc]) (by simp [h.2] : ¬(st.last_player == some st.turn_index) = true)

/-- The loop invariant of `Game.play` tying the turn index to the last
successful player and the pass counter, on live (non-won) states. -/
def Inv (st : GameSt) : Prop :=
  st.over = false →
    st.turn_index < 3 ∧
    (st.last_play = [] → st.passes_in_row = 0) ∧
    (st.last_play ≠ [] → ∃ s, st.last_player = some s ∧ s < 3 ∧
      st.passes_in_row ≤ 1 ∧ st.turn_index = (s + st.passes_in_row + 1) % 3)

lemma reach_inv {st : GameSt} (h : Reach st) : Inv st := by
  induction h with
  | init hands landlord hl =>
      intro _
      exact ⟨hl, fun _ => rfl, fun hne => absurd rfl hne⟩
  | @play st st' tokens hst hover hplay ih =>
      obtain ⟨hne, hst'⟩ := playAction_some hplay
      obtain ⟨hturn, -, -⟩ := ih hover
      intro hover'
      have hwin : (take_cards (curHand st) (parseRanks tokens)).1.isEmpty = false := by
        have hov : st'.over = (take_cards (curHand st) (parseRanks tokens)).1.isEmpty := by
          rw [hst']
        rw [← hov]
        exact hover'
      have ht : st'.turn_index = (st.turn_index + 1) % 3 := by
        rw [hst']
        simp [hwin]
      have hlp : st'.last_play = (take_cards (curHand st) (parseRanks tokens)).2 := by
        rw [hst']
      have hlpl : st'.last_player = some st.turn_index := by rw [hst']
      have hpir : st'.passes_in_row = 0 := by rw [hst']
      refine ⟨by omega, ?_, ?_⟩
      · intro hp
        rw [hlp] at hp
        exact absurd hp hne
      · intro _
        exact ⟨st.turn_index, hlpl, hturn, by omega, by omega⟩
  | @pass st st' hst hover hpass ih =>
      obtain ⟨hlpne, hlplne⟩ := passAction_some_cond hpass
      obtain ⟨hturn, -, hinv3⟩ := ih hover
      obtain ⟨s, hs, hs3, hple, hti⟩ := hinv3 hlpne
      by_cases hp : 2 ≤ st.passes_in_row + 1
      · have hst' := passAction_some_reset hpass hp
        have ht : st'.turn_index = (st.turn_index + 1) % 3 := by rw [hst']
        have hlp : st'.last_play = [] := by rw [hst']
        have hpir : st'.passes_in_row = 0 := by rw [hst']
        intro _
        refine ⟨by omega, fun _ => hpir, fun hc => absurd hlp hc⟩
      · have hst' := passAction_some_no_reset hpass (by omega)
        have ht : st'.turn_index = (st.turn_index + 1) % 3 := by rw [hst']
        have hlp : st'.last_play = st.last_play := by rw [hst']
        have hlpl : st'.last_player = st.last_player := by rw [hst']
        have hpir : st'.passes_in_row = st.passes_in_row + 1 := by rw [hst']
        intro _
        refine ⟨by omega, ?_, ?_⟩
        · intro hc
          rw [hlp] at hc
          exact absurd hc hlpne
        · intro _
          rw [hlpl, hpir]
          exact ⟨s, hs, hs3, by omega, by omega⟩

end Game

section ClaimC6

open Cards Pattern Registry Game

/-- **C6**: a PASS by the acting seat is rejected iff there is no last
play or the acting seat owns the last play; an accepted PASS appends a
PASS event, increments the consecutive-pass counter and advances the turn
when the counter stays below `playerCount − 1 = 2`; and when consecutive
passes reach 2, the trick resets (last play and last player cleared,
counter zeroed), a ROUND_RESET event is recorded, and the turn returns to
the seat that made the last successful play. -/
theorem C6_pass_rules :
    (∀ st : GameSt, passAction st = none ↔
      (st.last_play = [] ∨ st.last_player = some st.turn_index)) ∧
    (∀ (st st' : GameSt), passAction st = some st' → st.passes_in_row + 1 < 2 →
      st'.passes_in_row = st.passes_in_row + 1 ∧
      st'.turn_index = (st.turn_index + 1) % 3 ∧
      st'.events = st.events ++ ["PASS"] ∧
      st'.last_play = st.last_play ∧ st'.last_player = st.last_player) ∧
    (∀ (st st' : GameSt) (s : Nat), Reach st → st.over = false →
      passAction st = some st' → 2 ≤ st.passes_in_row + 1 →
      st.last_player = some s →
      st'.last_play = [] ∧ st'.last_player = none ∧ st'.passes_in_row = 0 ∧
      st'.events = st.events ++ ["PASS", "ROUND_RESET"] ∧ st'.turn_index = s) := by
  refine ⟨passAction_none_iff, ?_, ?_⟩
  · intro st st' h hp
    rw [passAction_some_no_reset h hp]
    exact ⟨rfl, rfl, rfl, rfl, rfl⟩
  · intro st st' s hreach hover h hp hlast
    obtain ⟨hlp, -⟩ := passAction_some_cond h
    obtain ⟨-, -, hinv3⟩ := reach_inv hreach hover
    obtain ⟨s', hs', hs3, hple, hti⟩ := hinv3 hlp
    rw [hlast] at hs'
    injection hs' with hs'
    subst hs'
    rw [passAction_some_reset h hp]
    refine ⟨rfl, rfl, rfl, rfl, ?_⟩
    show (st.turn_index + 1) % 3 = s
    omega

/-- Hands for the witness trace: seat 0 holds 3♠ 4♠, seats 1 and 2 one
card each. -/
def c6Hands : List (List Cards.Card) :=
  [[Cards.Card.mk "3♠", Cards.Card.mk "4♠"], [Cards.Card.mk "5♠"], [Cards.Card.mk "6♠"]]

/-- State after seat 0 opens with the single 3. -/
def c6St1 : GameSt :=
  ⟨[[Cards.Card.mk "4♠"], [Cards.Card.mk "5♠"], [Cards.Card.mk "6♠"]],
   1, [Cards.Card.mk "3♠"], some 0, 0, ["PLAY"], false⟩

/-- State after seat 1 passes. -/
def c6St2 : GameSt :=
  ⟨[[Cards.Card.mk "4♠"], [Cards.Card.mk "5♠"], [Cards.Card.mk "6♠"]],
   2, [Cards.Card.mk "3♠"], some 0, 1, ["PLAY", "PASS"], false⟩

/-- State after seat 2 also passes: trick reset, seat 0 leads again. -/
def c6St3 : GameSt :=
  ⟨[[Cards.Card.mk "4♠"], [Cards.Card.mk "5♠"], [Cards.Card.mk "6♠"]],
   0, [], none, 0, ["PLAY", "PASS", "PASS", "ROUND_RESET"], false⟩

/-- Witness for C6 on the spec's end-to-end example: seat 0 opens with a
single rank-3, seats 1 and 2 pass, the trick resets and it is seat 0's
turn again (and a fresh leader cannot pass). -/
theorem C6_pass_rules_witness :
    (passAction (initGame c6Hands 0) = none) ∧
    (c6St2.passes_in_row = c6St1.passes_in_row + 1 ∧
     c6St2.turn_index = (c6St1.turn_index + 1) % 3 ∧
     c6St2.events = c6St1.events ++ ["PASS"] ∧
     c6St2.last_play = c6St1.last_play ∧ c6St2.last_player = c6St1.last_player) ∧
    (c6St3.last_play = [] ∧ c6St3.last_player = none ∧ c6St3.passes_in_row = 0 ∧
     c6St3.events = c6St2.events ++ ["PASS", "ROUND_RESET"] ∧ c6St3.turn_index = 0) := by
  have hstep1 : playAction (initGame c6Hands 0) ["3"] = some c6St1 := rfl
  have hstep2 : passAction c6St1 = some c6St2 := rfl
  have hreach : Reach c6St2 :=
    Reach.pass (Reach.play ["3"] (Reach.init c6Hands 0 (by omega)) rfl hstep1) rfl hstep2
  refine ⟨?_, ?_, ?_⟩
  · exact (C6_pass_rules.1 (initGame c6Hands 0)).mpr (Or.inl rfl)
  · exact C6_pass_rules.2.1 c6St1 c6St2 rfl (by decide)
  · exact C6_pass_rules.2.2 c6St2 c6St3 0 hreach rfl rfl (by decide) rfl

end ClaimC6

/-! # Theorems -/

namespace Registry

open Cards Pattern

/-- The claim-side ordering: `a` is lexicographically at most `b`. -/
def pairLe (a b : Nat × Nat) : Prop := a.1 < b.1 ∨ (a.1 = b.1 ∧ a.2 ≤ b.2)

lemma pairLe_refl (a : Nat × Nat) : pairLe a a := Or.inr ⟨rfl, le_refl _⟩

lemma pairLe_trans {a b c : Nat × Nat} (h : pairLe a b) (h' : pairLe b c) : pairLe a c := by
  rcases h with h | ⟨h1, h2⟩ <;> rcases h' with h' | ⟨h1', h2'⟩ <;>
    unfold pairLe <;> omega

lemma tupleGt_iff {a b : Nat × Nat} : tupleGt a b = true ↔ pairLe b a ∧ a ≠ b := by
  rcases a with ⟨a1, a2⟩; rcases b with ⟨b1, b2⟩
  simp only [tupleGt, pairLe, Bool.or_eq_true, Bool.and_eq_true, decide_eq_true_eq,
    beq_iff_eq, ne_eq, Prod.mk.injEq]
  omega

lemma not_tupleGt_iff {a b : Nat × Nat} : tupleGt a b = false ↔ pairLe a b := by
  rcases a with ⟨a1, a2⟩; rcases b with ⟨b1, b2⟩
  simp only [tupleGt, pairLe, Bool.or_eq_false_iff, Bool.and_eq_false_iff,
    decide_eq_false_iff_not, not_lt, beq_eq_false_iff_ne, ne_eq]
  constructor
  · rintro ⟨h1, h2 | h2⟩ <;> omega
  · intro h
    omega

/-- `betterOf` keeps a match that is one of its arguments and dominates
both of them in the `(priority, key)` order. -/
lemma betterOf_spec (best : Option HandMatch) (m : HandMatch) :
    ∃ r, betterOf best m = some r ∧ (r = m ∨ best = some r) ∧
      pairLe (m.priority, m.key) (r.priority, r.key) ∧
      (∀ b, best = some b → pairLe (b.priority, b.key) (r.priority, r.key)) := by
  cases best with
  | none =>
      exact ⟨m, rfl, Or.inl rfl, pairLe_refl _, by rintro b ⟨⟩⟩
  | some b =>
      cases hgt : tupleGt (m.priority, m.key) (b.priority, b.key) with
      | true =>
          refine ⟨m, by simp [betterOf, hgt], Or.inl rfl, pairLe_refl _, ?_⟩
          rintro b' ⟨⟩
          exact (tupleGt_iff.mp hgt).1
      | false =>
          refine ⟨b, by simp [betterOf, hgt], Or.inr rfl, not_tupleGt_iff.mp hgt, ?_⟩
          rintro b' ⟨⟩
          exact pairLe_refl _

lemma evalGo_cons_none {cards : List Card} {p : HandPattern} (best : Option HandMatch)
    (ps : List HandPattern) (hp : p.matchFn cards = none) :
    evalGo cards best (p :: ps) = evalGo cards best ps := by
  simp only [evalGo, hp]

lemma evalGo_cons_some {cards : List Card} {p : HandPattern} {m : HandMatch}
    (best : Option HandMatch) (ps : List HandPattern) (hp : p.matchFn cards = some m) :
    evalGo cards best (p :: ps) = evalGo cards (betterOf best m) ps := by
  simp only [evalGo, hp]

/-- `evalGo` starting from a present best never returns `none`. -/
lemma evalGo_some_isSome (cards : List Card) :
    ∀ (ps : List HandPattern) (b : HandMatch), (evalGo cards (some b) ps).isSome := by
  intro ps
  induction ps with
  | nil => intro b; rfl
  | cons p ps ih =>
      intro b
      cases hp : p.matchFn cards with
      | none =>
          rw [evalGo_cons_none _ _ hp]
          exact ih b
      | some m =>
          obtain ⟨r, hr, -, -, -⟩ := betterOf_spec (some b) m
          rw [evalGo_cons_some _ _ hp, hr]
          exact ih r

/-- `evalGo` returns `none` iff it started with no best and no pattern
in the remaining list matches. -/
lemma evalGo_none_iff (cards : List Card) :
    ∀ (ps : List HandPattern) (best : Option HandMatch),
      evalGo cards best ps = none ↔ (best = none ∧ ∀ p ∈ ps, p.matchFn cards = none) := by
  intro ps
  induction ps with
  | nil => simp [evalGo]
  | cons p ps ih =>
      intro best
      cases hp : p.matchFn cards with
      | none =>
          rw [evalGo_cons_none _ _ hp, ih]
          constructor
          · rintro ⟨h1, h2⟩
            refine ⟨h1, ?_⟩
            intro q hq
            rcases List.mem_cons.mp hq with rfl | hq
            · exact hp
            · exact h2 q hq
          · rintro ⟨h1, h2⟩
            exact ⟨h1, fun q hq => h2 q (List.mem_cons_of_mem _ hq)⟩
      | some m =>
          obtain ⟨r, hr, -, -, -⟩ := betterOf_spec best m
          rw [evalGo_cons_some _ _ hp, hr]
          constructor
          · intro h
            have := evalGo_some_isSome cards ps r
            rw [h] at this
            exact absurd this (by simp)
          · rintro ⟨-, h2⟩
            exact absurd (h2 p (List.mem_cons_self _ _)) (by simp [hp])

/-- The fold of `evaluate` keeps a maximal `(priority, key)` match: if it
returns `some m`, then `m` is either the incoming best or produced by a
listed pattern, dominates the incoming best, and dominates every match
produced by a listed pattern. -/
lemma evalGo_spec (cards : List Card) :
    ∀ (ps : List HandPattern) (best : Option HandMatch) (m : HandMatch),
      evalGo cards best ps = some m →
        (best = some m ∨ ∃ p ∈ ps, p.matchFn cards = some m) ∧
        (∀ b, best = some b → pairLe (b.priority, b.key) (m.priority, m.key)) ∧
        (∀ p ∈ ps, ∀ m', p.matchFn cards = some m' →
          pairLe (m'.priority, m'.key) (m.priority, m.key)) := by
  intro ps
  induction ps with
  | nil =>
      intro best m h
      simp only [evalGo] at h
      subst h
      refine ⟨Or.inl rfl, fun b hb => by cases hb; exact pairLe_refl _, by simp⟩
  | cons p ps ih =>
      intro best m h
      cases hp : p.matchFn cards with
      | none =>
          rw [evalGo_cons_none _ _ hp] at h
          obtain ⟨h1, h2, h3⟩ := ih best m h
          refine ⟨?_, h2, ?_⟩
          · rcases h1 with h1 | ⟨q, hq, hqm⟩
            · exact Or.inl h1
            · exact Or.inr ⟨q, List.mem_cons_of_mem _ hq, hqm⟩
          · intro q hq m' hm'
            rcases List.mem_cons.mp hq with rfl | hq
            · rw [hp] at hm'; cases hm'
            · exact h3 q hq m' hm'
      | some m0 =>
          obtain ⟨r, hr, hrsrc, hrm0, hrbest⟩ := betterOf_spec best m0
          rw [evalGo_cons_some _ _ hp, hr] at h
          obtain ⟨h1, h2, h3⟩ := ih (some r) m h
          have hrm : pairLe (r.priority, r.key) (m.priority, m.key) := h2 r rfl
          have hm0 : pairLe (m0.priority, m0.key) (m.priority, m.key) :=
            pairLe_trans hrm0 hrm
          refine ⟨?_, ?_, ?_⟩
          · rcases h1 with h1 | ⟨q, hq, hqm⟩
            · injection h1 with h1
              subst h1
              rcases hrsrc with rfl | hbest
              · exact Or.inr ⟨p, List.mem_cons_self _ _, hp⟩
              · exact Or.inl hbest
            · exact Or.inr ⟨q, List.mem_cons_of_mem _ hq, hqm⟩
          · intro b hb
            exact pairLe_trans (hrbest b hb) hrm
          · intro q hq m' hm'
            rcases List.mem_cons.mp hq with rfl | hq
            · rw [hp] at hm'; cases hm'; exact hm0
            · exact h3 q hq m' hm'

end Registry

section ClaimC3

open Cards Pattern Registry

/-- **C3**: for every list of cards, `HandRegistry.evaluate` runs every
registered matcher and returns a match whose `(priority, key)` pair is
lexicographically largest among all matchers that match (and which is
itself produced by one of the matchers), and returns `None` exactly when
no registered matcher matches. -/
theorem C3_evaluate_picks_lex_largest (patterns : List HandPattern) (cards : List Card) :
    (evaluate patterns cards = none ↔ ∀ p ∈ patterns, p.matchFn cards = none) ∧
    ∀ m, evaluate patterns cards = some m →
      (∃ p ∈ patterns, p.matchFn cards = some m) ∧
      ∀ p ∈ patterns, ∀ m', p.matchFn cards = some m' →
        pairLe (m'.priority, m'.key) (m.priority, m.key) := by
  constructor
  · rw [evaluate, evalGo_none_iff]
    simp
  · intro m h
    obtain ⟨h1, h2, h3⟩ := evalGo_spec cards patterns none m h
    rcases h1 with h1 | h1
    · exact absurd h1 (by simp)
    · exact ⟨h1, h3⟩

/-- Witness for C3 at a concrete input: a lone 3♠ is classified by the
`single` matcher. -/
theorem C3_evaluate_picks_lex_largest_witness :
    ∃ p ∈ BUILTIN_PATTERNS, p.matchFn [Cards.Card.mk "3♠"] =
      some ⟨"single", 0, [], 10, 1⟩ :=
  ((C3_evaluate_picks_lex_largest BUILTIN_PATTERNS [Cards.Card.mk "3♠"]).2
    ⟨"single", 0, [], 10, 1⟩ (by decide)).1

end ClaimC3

section ClaimC8

open Cards Pattern Registry

/-- **C8**: the five cards of ranks 3,4,5,6,7 classify as the `sequence`
(run) shape with length metadata 5; the five cards of ranks 3,4,5,6,2 do
not classify as a run (rank 2 is excluded) and match no other shape, so
classification returns no match at all. -/
theorem C8_run_classification :
    evaluate BUILTIN_PATTERNS
        [Cards.Card.mk "3♠", Cards.Card.mk "4♠", Cards.Card.mk "5♥",
         Cards.Card.mk "6♣", Cards.Card.mk "7♦"] =
      some ⟨"sequence", RANK_VALUE "7", [("length", 5)], PatternPriority.NORMAL, 5⟩ ∧
    evaluate BUILTIN_PATTERNS
        [Cards.Card.mk "3♠", Cards.Card.mk "4♠", Cards.Card.mk "5♥",
         Cards.Card.mk "6♣", Cards.Card.mk "2♦"] = none := by
  constructor <;> decide

end ClaimC8

section ClaimC10

open Cards Pattern Registry

/-- **C10**: the beats relation is asymmetric and irreflexive: for every
registry and every two card lists, `can_beat a b` and `can_beat b a` are
never both true, and `can_beat a a` is always false. -/
theorem C10_can_beat_asymmetric_irreflexive (patterns : List HandPattern)
    (a b : List Card) :
    ¬(can_beat patterns a b = true ∧ can_beat patterns b a = true) ∧
    can_beat patterns a a = false := by
  constructor
  · rintro ⟨h1, h2⟩
    cases hea : evaluate patterns a with
    | none => simp [can_beat, hea] at h1
    | some ma =>
        cases heb : evaluate patterns b with
        | none => simp [can_beat, heb] at h1
        | some mb =>
            simp only [can_beat, hea, heb] at h1 h2
            by_cases hn : ma.name = mb.name
            · rw [if_neg (by simp [hn])] at h1
              rw [if_neg (by simp [hn])] at h2
              rw [← hn] at h1 h2
              cases hf : findPattern patterns ma.name with
              | none => simp [hf] at h1
              | some ap =>
                  simp only [hf] at h1 h2
                  by_cases hs1 : ap.same_shape ma mb = true
                  · rw [if_pos hs1] at h1
                    by_cases hs2 : ap.same_shape mb ma = true
                    · rw [if_pos hs2] at h2
                      simp only [decide_eq_true_eq] at h1 h2
                      omega
                    · rw [if_neg hs2] at h2
                      cases h2
                  · rw [if_neg hs1] at h1
                    cases h1
            · rw [if_pos (by simp [hn])] at h1
              rw [if_pos (by simp [Ne.symm hn])] at h2
              simp only [decide_eq_true_eq] at h1 h2
              omega
  · cases hea : evaluate patterns a with
    | none => simp [can_beat, hea]
    | some m =>
        simp only [can_beat, hea]
        rw [if_neg (by simp)]
        cases hf : findPattern patterns m.name with
        | none => simp [hf]
        | some p =>
            simp only [hf]
            by_cases hs : p.same_shape m m = true
            · rw [if_pos hs]
              simp
            · rw [if_neg hs]

end ClaimC10

namespace Pattern

open Cards

/-! Every builtin matcher stamps its match with its own name and fixed
priority, so a match's name determines its priority. -/

lemma jokerBombMatch_nm {l : List Cards.Card} {m : HandMatch} (h : jokerBombMatch l = some m) :
    m.name = "joker_bomb" ∧ m.priority = PatternPriority.JOKER_BOMB := by
  unfold jokerBombMatch at h
  split_ifs at h
  injection h with h
  subst h
  exact ⟨rfl, rfl⟩

lemma bombMatch_nm {l : List Cards.Card} {m : HandMatch} (h : bombMatch l = some m) :
    m.name = "bomb" ∧ m.priority = PatternPriority.BOMB := by
  unfold bombMatch at h
  split_ifs at h
  · rcases hck : counts_keys l with _ | ⟨r, _ | ⟨r2, rest⟩⟩ <;> simp only [hck] at h
    · cases h
    · injection h with h
      subst h
      exact ⟨rfl, rfl⟩
    · cases h

lemma singleMatch_nm {l : List Cards.Card} {m : HandMatch} (h : singleMatch l = some m) :
    m.name = "single" ∧ m.priority = PatternPriority.NORMAL := by
  unfold singleMatch at h
  rcases l with _ | ⟨c, _ | ⟨c2, rest⟩⟩
  · cases h
  · injection h with h
    subst h
    exact ⟨rfl, rfl⟩
  · cases h

lemma pairMatch_nm {l : List Cards.Card} {m : HandMatch} (h : pairMatch l = some m) :
    m.name = "pair" ∧ m.priority = PatternPriority.NORMAL := by
  unfold pairMatch at h
  split_ifs at h
  · rcases hck : counts_keys l with _ | ⟨r, _ | ⟨r2, rest⟩⟩ <;> simp only [hck] at h
    · cases h
    · injection h with h
      subst h
      exact ⟨rfl, rfl⟩
    · cases h

lemma tripleMatch_nm {l : List Cards.Card} {m : HandMatch} (h : tripleMatch l = some m) :
    m.name = "triple" ∧ m.priority = PatternPriority.NORMAL := by
  unfold tripleMatch at h
  split_ifs at h
  · rcases hck : counts_keys l with _ | ⟨r, _ | ⟨r2, rest⟩⟩ <;> simp only [hck] at h
    · cases h
    · injection h with h
      subst h
      exact ⟨rfl, rfl⟩
    · cases h

lemma tripleWithSingleMatch_nm {l : List Cards.Card} {m : HandMatch}
    (h : tripleWithSingleMatch l = some m) :
    m.name = "triple_with_single" ∧ m.priority = PatternPriority.NORMAL := by
  unfold tripleWithSingleMatch at h
  split_ifs at h
  · rcases hfl : (counts_keys l).filter (fun r => rank_count l r == 3) with _ | ⟨r, rest⟩ <;>
      simp only [hfl] at h
    · cases h
    · injection h with h
      subst h
      exact ⟨rfl, rfl⟩

lemma tripleWithPairMatch_nm {l : List Cards.Card} {m : HandMatch}
    (h : tripleWithPairMatch l = some m) :
    m.name = "triple_with_pair" ∧ m.priority = PatternPriority.NORMAL := by
  unfold tripleWithPairMatch at h
  split_ifs at h
  · rcases hfl : (counts_keys l).filter (fun r => rank_count l r == 3) with _ | ⟨r, rest⟩ <;>
      simp only [hfl] at h
    · cases h
    · injection h with h
      subst h
      exact ⟨rfl, rfl⟩

lemma sequenceMatch_nm {l : List Cards.Card} {m : HandMatch} (h : sequenceMatch l = some m) :
    m.name = "sequence" ∧ m.priority = PatternPriority.NORMAL := by
  simp only [sequenceMatch] at h
  split_ifs at h
  · rcases hgl : (rank_list (sort_cards l)).getLast? with _ | last <;> simp only [hgl] at h
    · cases h
    · injection h with h
      subst h
      exact ⟨rfl, rfl⟩

lemma pairSequenceMatch_nm {l : List Cards.Card} {m : HandMatch}
    (h : pairSequenceMatch l = some m) :
    m.name = "pair_sequence" ∧ m.priority = PatternPriority.NORMAL := by
  simp only [pairSequenceMatch] at h
  split_ifs at h
  · rcases hgl : (sortedRankKeys l).getLast? with _ | last <;> simp only [hgl] at h
    · cases h
    · injection h with h
      subst h
      exact ⟨rfl, rfl⟩

lemma tripleSequenceMatch_nm {l : List Cards.Card} {m : HandMatch}
    (h : tripleSequenceMatch l = some m) :
    m.name = "triple_sequence" ∧ m.priority = PatternPriority.NORMAL := by
  simp only [tripleSequenceMatch] at h
  split_ifs at h
  · rcases hgl : (sortedRankKeys l).getLast? with _ | last <;> simp only [hgl] at h
    · cases h
    · injection h with h
      subst h
      exact ⟨rfl, rfl⟩

lemma fourWithTwoSinglesMatch_nm {l : List Cards.Card} {m : HandMatch}
    (h : fourWithTwoSinglesMatch l = some m) :
    m.name = "four_with_two_singles" ∧ m.priority = PatternPriority.STRONG := by
  unfold fourWithTwoSinglesMatch at h
  split_ifs at h
  · rcases hfl : (counts_keys l).filter (fun r => rank_count l r == 4) with _ | ⟨r, rest⟩ <;>
      simp only [hfl] at h
    · cases h
    · injection h with h
      subst h
      exact ⟨rfl, rfl⟩

lemma fourWithTwoPairsMatch_nm {l : List Cards.Card} {m : HandMatch}
    (h : fourWithTwoPairsMatch l = some m) :
    m.name = "four_with_two_pairs" ∧ m.priority = PatternPriority.STRONG := by
  unfold fourWithTwoPairsMatch at h
  split_ifs at h
  · rcases hfl : (counts_keys l).filter (fun r => rank_count l r == 4) with _ | ⟨r, rest⟩ <;>
      simp only [hfl] at h
    · cases h
    · injection h with h
      subst h
      exact ⟨rfl, rfl⟩

/-- The cross-pattern priority each builtin shape name carries. -/
def prioOfName (n : String) : Nat :=
  if n == "joker_bomb" then PatternPriority.JOKER_BOMB
  else if n == "bomb" then PatternPriority.BOMB
  else if n == "four_with_two_pairs" || n == "four_with_two_singles" then PatternPriority.STRONG
  else PatternPriority.NORMAL

end Pattern

namespace Registry

open Cards Pattern

/-- A match produced by the builtin registry carries the priority its
name dictates. -/
lemma evaluate_builtin_nm {l : List Card} {m : HandMatch}
    (h : evaluate BUILTIN_PATTERNS l = some m) : m.priority = prioOfName m.name := by
  obtain ⟨h1, -, -⟩ := evalGo_spec l BUILTIN_PATTERNS none m h
  rcases h1 with h1 | ⟨p, hp, hm⟩
  · cases h1
  · simp only [BUILTIN_PATTERNS, List.mem_cons, List.not_mem_nil, or_false] at hp
    rcases hp with rfl | rfl | rfl | rfl | rfl | rfl | rfl | rfl | rfl | rfl | rfl | rfl
    · obtain ⟨hn, hpr⟩ := jokerBombMatch_nm hm
      rw [hpr, hn]
      rfl
    · obtain ⟨hn, hpr⟩ := bombMatch_nm hm
      rw [hpr, hn]
      rfl
    · obtain ⟨hn, hpr⟩ := fourWithTwoPairsMatch_nm hm
      rw [hpr, hn]
      rfl
    · obtain ⟨hn, hpr⟩ := fourWithTwoSinglesMatch_nm hm
      rw [hpr, hn]
      rfl
    · obtain ⟨hn, hpr⟩ := tripleSequenceMatch_nm hm
      rw [hpr, hn]
      rfl
    · obtain ⟨hn, hpr⟩ := pairSequenceMatch_nm hm
      rw [hpr, hn]
      rfl
    · obtain ⟨hn, hpr⟩ := sequenceMatch_nm hm
      rw [hpr, hn]
      rfl
    · obtain ⟨hn, hpr⟩ := tripleWithPairMatch_nm hm
      rw [hpr, hn]
      rfl
    · obtain ⟨hn, hpr⟩ := tripleWithSingleMatch_nm hm
      rw [hpr, hn]
      rfl
    · obtain ⟨hn, hpr⟩ := tripleMatch_nm hm
      rw [hpr, hn]
      rfl
    · obtain ⟨hn, hpr⟩ := pairMatch_nm hm
      rw [hpr, hn]
      rfl
    · obtain ⟨hn, hpr⟩ := singleMatch_nm hm
      rw [hpr, hn]
      rfl

lemma prioOfName_lt_joker {n : String} (h : n ≠ "joker_bomb") :
    prioOfName n < PatternPriority.JOKER_BOMB := by
  unfold prioOfName
  rw [if_neg (by simpa using h)]
  split_ifs <;> decide

lemma prioOfName_lt_bomb {n : String} (h1 : n ≠ "joker_bomb") (h2 : n ≠ "bomb") :
    prioOfName n < PatternPriority.BOMB := by
  unfold prioOfName
  rw [if_neg (by simpa using h1), if_neg (by simpa using h2)]
  split_ifs <;> decide

end Registry

section ClaimC4

open Cards Pattern Registry

/-- **C4**: for classifiable card lists `a`, `b` with matches `ma`, `mb`:
if their priority tiers differ, `a` beats `b` iff `a`'s tier is higher;
if their shape names match but the registered pattern's `same_shape`
check fails, `a` cannot beat `b`; if they are the same shape variant,
`a` beats `b` iff its key is strictly greater; the joker pair beats every
hand classified under any other name, and a bomb beats every hand that is
neither a bomb nor the joker pair. -/
theorem C4_can_beat_dominance (a b : List Card) (ma mb : HandMatch)
    (hea : evaluate BUILTIN_PATTERNS a = some ma)
    (heb : evaluate BUILTIN_PATTERNS b = some mb) :
    (ma.priority ≠ mb.priority →
      (can_beat BUILTIN_PATTERNS a b = true ↔ ma.priority > mb.priority)) ∧
    (∀ ap, ma.name = mb.name → findPattern BUILTIN_PATTERNS ma.name = some ap →
      ap.same_shape ma mb = false → can_beat BUILTIN_PATTERNS a b = false) ∧
    (∀ ap, ma.name = mb.name → findPattern BUILTIN_PATTERNS ma.name = some ap →
      ap.same_shape ma mb = true →
      (can_beat BUILTIN_PATTERNS a b = true ↔ ma.key > mb.key)) ∧
    (ma.name = "joker_bomb" → mb.name ≠ "joker_bomb" →
      can_beat BUILTIN_PATTERNS a b = true) ∧
    (ma.name = "bomb" → mb.name ≠ "bomb" → mb.name ≠ "joker_bomb" →
      can_beat BUILTIN_PATTERNS a b = true) := by
  have hna := evaluate_builtin_nm hea
  have hnb := evaluate_builtin_nm heb
  refine ⟨?_, ?_, ?_, ?_, ?_⟩
  · intro hne
    have hn : ma.name ≠ mb.name := by
      intro hn
      rw [hna, hnb, hn] at hne
      exact hne rfl
    simp only [can_beat, hea, heb]
    rw [if_pos hn]
    simp
  · intro ap hn hf hs
    simp only [can_beat, hea, heb]
    rw [if_neg (by simp [hn]), ← hn]
    simp only [hf]
    rw [if_neg (by simp [hs])]
  · intro ap hn hf hs
    simp only [can_beat, hea, heb]
    rw [if_neg (by simp [hn]), ← hn]
    simp only [hf]
    rw [if_pos hs]
    simp
  · intro hja hjb
    have hn : ma.name ≠ mb.name := by
      rw [hja]
      exact fun hc => hjb hc.symm
    simp only [can_beat, hea, heb]
    rw [if_pos hn]
    simp only [decide_eq_true_eq]
    rw [hna, hnb, hja]
    have h100 : prioOfName "joker_bomb" = PatternPriority.JOKER_BOMB := rfl
    rw [h100]
    exact prioOfName_lt_joker hjb
  · intro hba hbb hbj
    have hn : ma.name ≠ mb.name := by
      rw [hba]
      exact fun hc => hbb hc.symm
    simp only [can_beat, hea, heb]
    rw [if_pos hn]
    simp only [decide_eq_true_eq]
    rw [hna, hnb, hba]
    have h90 : prioOfName "bomb" = PatternPriority.BOMB := rfl
    rw [h90]
    exact prioOfName_lt_bomb hbj hbb

/-- Witness for C4: `Single(4)` beats `Single(3)` and not conversely; the
joker pair beats a bomb of 2s; a bomb of 3s beats a pair of 2s. -/
theorem C4_can_beat_dominance_witness :
    can_beat BUILTIN_PATTERNS [Cards.Card.mk "4♥"] [Cards.Card.mk "3♦"] = true ∧
    can_beat BUILTIN_PATTERNS [Cards.Card.mk "3♦"] [Cards.Card.mk "4♥"] = false ∧
    can_beat BUILTIN_PATTERNS [Cards.Card.mk "BJ", Cards.Card.mk "RJ"]
      [Cards.Card.mk "2♠", Cards.Card.mk "2♥", Cards.Card.mk "2♣", Cards.Card.mk "2♦"] = true ∧
    can_beat BUILTIN_PATTERNS
      [Cards.Card.mk "3♠", Cards.Card.mk "3♥", Cards.Card.mk "3♣", Cards.Card.mk "3♦"]
      [Cards.Card.mk "2♠", Cards.Card.mk "2♥"] = true := by
  refine ⟨?_, ?_, ?_, ?_⟩
  · exact ((C4_can_beat_dominance [Cards.Card.mk "4♥"] [Cards.Card.mk "3♦"]
      ⟨"single", 1, [], 10, 1⟩ ⟨"single", 0, [], 10, 1⟩ (by decide) (by decide)).2.2.1
      ⟨"single", PatternPriority.NORMAL, singleMatch, defaultSameShape⟩
      rfl rfl (by decide)).mpr (by decide)
  · have h := (C4_can_beat_dominance [Cards.Card.mk "3♦"] [Cards.Card.mk "4♥"]
      ⟨"single", 0, [], 10, 1⟩ ⟨"single", 1, [], 10, 1⟩ (by decide) (by decide)).2.2.1
      ⟨"single", PatternPriority.NORMAL, singleMatch, defaultSameShape⟩
      rfl rfl (by decide)
    cases hcb : can_beat BUILTIN_PATTERNS [Cards.Card.mk "3♦"] [Cards.Card.mk "4♥"] with
    | false => rfl
    | true => exact absurd (h.mp hcb) (by decide)
  · exact (C4_can_beat_dominance [Cards.Card.mk "BJ", Cards.Card.mk "RJ"]
      [Cards.Card.mk "2♠", Cards.Card.mk "2♥", Cards.Card.mk "2♣", Cards.Card.mk "2♦"]
      ⟨"joker_bomb", 14, [], 100, 2⟩ ⟨"bomb", 12, [], 90, 4⟩
      (by decide) (by decide)).2.2.2.1 rfl (by decide)
  · exact (C4_can_beat_dominance
      [Cards.Card.mk "3♠", Cards.Card.mk "3♥", Cards.Card.mk "3♣", Cards.Card.mk "3♦"]
      [Cards.Card.mk "2♠", Cards.Card.mk "2♥"]
      ⟨"bomb", 0, [], 90, 4⟩ ⟨"pair", 12, [], 10, 2⟩
      (by decide) (by decide)).2.2.2.2 rfl (by decide) (by decide)

end ClaimC4

namespace Pattern

open Cards

/-! Classification is order-independent: machinery.  Two sorted
arrangements of the same multiset agree as soon as the order relation is
antisymmetric on the elements involved. -/

lemma eq_of_perm_sorted {α : Type} (r : α → α → Prop) :
    ∀ s₁ s₂ : List α, s₁.Perm s₂ → s₁.Pairwise r → s₂.Pairwise r →
      (∀ a ∈ s₁, ∀ b ∈ s₁, r a b → r b a → a = b) → s₁ = s₂ := by
  intro s₁
  induction s₁ with
  | nil =>
      intro s₂ hp _ _ _
      exact hp.nil_eq
  | cons a t₁ ih =>
      intro s₂ hp hps₁ hps₂ hanti
      cases s₂ with
      | nil => exact absurd hp.symm.nil_eq (by simp)
      | cons b t₂ =>
          have hb' : b ∈ a :: t₁ := hp.symm.subset (List.mem_cons_self b t₂)
          have ha' : a ∈ b :: t₂ := hp.subset (List.mem_cons_self a t₁)
          have hab : a = b := by
            rcases List.mem_cons.mp hb' with hb | hb
            · exact hb.symm
            · rcases List.mem_cons.mp ha' with ha | ha
              · exact ha
              · exact hanti a (List.mem_cons_self a t₁) b (List.mem_cons_of_mem _ hb)
                  ((List.pairwise_cons.mp hps₁).1 b hb)
                  ((List.pairwise_cons.mp hps₂).1 a ha)
          subst hab
          rw [ih t₂ hp.cons_inv (List.pairwise_cons.mp hps₁).2
            (List.pairwise_cons.mp hps₂).2
            (fun x hx y hy => hanti x (List.mem_cons_of_mem _ hx) y (List.mem_cons_of_mem _ hy))]

/-- Adjacent differences of exactly one force strictly increasing keys. -/
lemma adjDiffOne_pairwise {α : Type} (f : α → Int) :
    ∀ s : List α, adjDiffOne (s.map f) = true → s.Pairwise (fun x y => f x < f y) := by
  intro s
  induction s with
  | nil => intro _; exact List.Pairwise.nil
  | cons x t ih =>
      intro h
      cases t with
      | nil => simp
      | cons y rest =>
          simp only [List.map_cons, adjDiffOne, Bool.and_eq_true, beq_iff_eq] at h
          obtain ⟨h1, h2⟩ := h
          have hrec : (y :: rest).Pairwise (fun a b => f a < f b) := by
            apply ih
            simpa [adjDiffOne] using h2
          refine List.pairwise_cons.mpr ⟨?_, hrec⟩
          intro z hz
          rcases List.mem_cons.mp hz with rfl | hz
          · omega
          · have := (List.pairwise_cons.mp hrec).1 z hz
            omega

/-- Strictly increasing keys make the key injective on the list. -/
lemma pairwise_strict_inj {α : Type} (f : α → Int) :
    ∀ s : List α, s.Pairwise (fun x y => f x < f y) →
      ∀ a ∈ s, ∀ b ∈ s, f a = f b → a = b := by
  intro s
  induction s with
  | nil => intro _ a ha; cases ha
  | cons x t ih =>
      intro hpw a ha b hb hf
      obtain ⟨hhead, htail⟩ := List.pairwise_cons.mp hpw
      rcases List.mem_cons.mp ha with ha1 | ha2 <;> rcases List.mem_cons.mp hb with hb1 | hb2
      · rw [ha1, hb1]
      · exact absurd (ha1 ▸ hf) (ne_of_lt (hhead b hb2))
      · exact absurd (hb1 ▸ hf).symm (ne_of_lt (hhead a ha2))
      · exact ih htail a ha2 b hb2 hf

/-- A matcher that preserves `some` results across permutations is
permutation-invariant outright. -/
lemma matchFn_perm_of_dir (f : List Card → Option HandMatch)
    (dir : ∀ l₁ l₂, l₁.Perm l₂ → ∀ m, f l₁ = some m → f l₂ = some m) :
    ∀ l₁ l₂, l₁.Perm l₂ → f l₁ = f l₂ := by
  intro l₁ l₂ h
  cases h1 : f l₁ with
  | some m => exact (dir l₁ l₂ h m h1).symm
  | none =>
      cases h2 : f l₂ with
      | none => rfl
      | some m =>
          rw [dir l₂ l₁ h.symm m h2] at h1
          cases h1

instance : IsTotal String strLe :=
  ⟨fun a b => charListLe_total a.toList b.toList⟩

instance : IsTrans String strLe :=
  ⟨fun _ _ _ h h' => charListLe_trans _ _ _ h h'⟩

lemma rank_list_perm {l₁ l₂ : List Card} (h : l₁.Perm l₂) :
    (rank_list l₁).Perm (rank_list l₂) := h.map _

lemma counts_keys_perm {l₁ l₂ : List Card} (h : l₁.Perm l₂) :
    (counts_keys l₁).Perm (counts_keys l₂) := (h.map _).dedup

lemma rank_count_funext {l₁ l₂ : List Card} (h : l₁.Perm l₂) :
    rank_count l₁ = rank_count l₂ :=
  funext fun r => (h.map _).count_eq r

lemma singleMatch_perm {l₁ l₂ : List Card} (h : l₁.Perm l₂) :
    singleMatch l₁ = singleMatch l₂ := by
  apply matchFn_perm_of_dir singleMatch ?_ l₁ l₂ h
  intro a b hp m hm
  unfold singleMatch at hm ⊢
  rcases a with _ | ⟨c, _ | ⟨c2, rest⟩⟩
  · cases hm
  · rw [List.perm_singleton.mp hp.symm]
    exact hm
  · cases hm

lemma pairMatch_perm {l₁ l₂ : List Card} (h : l₁.Perm l₂) :
    pairMatch l₁ = pairMatch l₂ := by
  apply matchFn_perm_of_dir pairMatch ?_ l₁ l₂ h
  intro a b hp m hm
  unfold pairMatch at hm ⊢
  by_cases hn : (a.length == 2) = true
  swap
  · rw [if_neg hn] at hm; cases hm
  rw [if_pos hn] at hm
  rw [if_pos (by rw [← hp.length_eq]; exact hn)]
  rcases hck : counts_keys a with _ | ⟨r, _ | ⟨r2, rest⟩⟩ <;> simp only [hck] at hm
  · cases hm
  · have hck2 : counts_keys b = [r] :=
      List.perm_singleton.mp (by rw [← hck]; exact counts_keys_perm hp.symm)
    rw [hck2]
    exact hm
  · cases hm

lemma tripleMatch_perm {l₁ l₂ : List Card} (h : l₁.Perm l₂) :
    tripleMatch l₁ = tripleMatch l₂ := by
  apply matchFn_perm_of_dir tripleMatch ?_ l₁ l₂ h
  intro a b hp m hm
  unfold tripleMatch at hm ⊢
  by_cases hn : (a.length == 3) = true
  swap
  · rw [if_neg hn] at hm; cases hm
  rw [if_pos hn] at hm
  rw [if_pos (by rw [← hp.length_eq]; exact hn)]
  rcases hck : counts_keys a with _ | ⟨r, _ | ⟨r2, rest⟩⟩ <;> simp only [hck] at hm
  · cases hm
  · have hck2 : counts_keys b = [r] :=
      List.perm_singleton.mp (by rw [← hck]; exact counts_keys_perm hp.symm)
    rw [hck2]
    exact hm
  · cases hm

lemma bombMatch_perm {l₁ l₂ : List Card} (h : l₁.Perm l₂) :
    bombMatch l₁ = bombMatch l₂ := by
  apply matchFn_perm_of_dir bombMatch ?_ l₁ l₂ h
  intro a b hp m hm
  unfold bombMatch at hm ⊢
  by_cases hn : (a.length == 4) = true
  swap
  · rw [if_neg hn] at hm; cases hm
  rw [if_pos hn] at hm
  rw [if_pos (by rw [← hp.length_eq]; exact hn)]
  rcases hck : counts_keys a with _ | ⟨r, _ | ⟨r2, rest⟩⟩ <;> simp only [hck] at hm
  · cases hm
  · have hck2 : counts_keys b = [r] :=
      List.perm_singleton.mp (by rw [← hck]; exact counts_keys_perm hp.symm)
    rw [hck2]
    exact hm
  · cases hm

lemma counts_values_sorted_perm {l₁ l₂ : List Card} (h : l₁.Perm l₂) :
    counts_values_sorted l₁ = counts_values_sorted l₂ := by
  unfold counts_values_sorted
  have hmap : (((counts_keys l₁).map (rank_count l₁)) : List Nat).Perm
      ((counts_keys l₂).map (rank_count l₂)) := by
    rw [rank_count_funext h]
    exact (counts_keys_perm h).map _
  apply eq_of_perm_sorted (fun a b : Nat => a ≤ b) _ _
    ((List.perm_insertionSort _ _).trans (hmap.trans (List.perm_insertionSort _ _).symm))
    (List.sorted_insertionSort _ _) (List.sorted_insertionSort _ _)
  intro x _ y _ hxy hyx
  exact le_antisymm hxy hyx

lemma countsFilter_perm {l₁ l₂ : List Card} (hp : l₁.Perm l₂) (k : Nat) :
    (((counts_keys l₁).filter (fun r => rank_count l₁ r == k)) : List String).Perm
      ((counts_keys l₂).filter (fun r => rank_count l₂ r == k)) := by
  rw [rank_count_funext hp]
  exact (counts_keys_perm hp).filter _

/-- If the sorted count values list contains `k` exactly once, exactly one
rank has count `k`. -/
lemma filter_eq_singleton_of_cvs {l : List Card} {vals : List Nat} {k : Nat}
    (hcvs : counts_values_sorted l = vals) (hk : vals.count k = 1) :
    ∃ r, (counts_keys l).filter (fun r => rank_count l r == k) = [r] := by
  have hpm : (counts_values_sorted l).Perm ((counts_keys l).map (rank_count l)) :=
    List.perm_insertionSort _ _
  have hcount : ((counts_keys l).map (rank_count l)).count k = 1 := by
    have := hpm.count_eq k
    rw [hcvs, hk] at this
    exact this.symm
  have hcp : ((counts_keys l).map (rank_count l)).count k =
      (counts_keys l).countP (fun r => rank_count l r == k) := by
    rw [List.count_eq_countP, List.countP_map]
    rfl
  have hlen : ((counts_keys l).filter (fun r => rank_count l r == k)).length = 1 := by
    rw [← List.countP_eq_length_filter, ← hcp]
    exact hcount
  exact List.length_eq_one.mp hlen

lemma tripleWithSingleMatch_perm {l₁ l₂ : List Card} (h : l₁.Perm l₂) :
    tripleWithSingleMatch l₁ = tripleWithSingleMatch l₂ := by
  apply matchFn_perm_of_dir tripleWithSingleMatch ?_ l₁ l₂ h
  intro a b hp m hm
  unfold tripleWithSingleMatch at hm ⊢
  by_cases hn : (a.length == 4) = true
  swap
  · rw [if_neg hn] at hm; cases hm
  rw [if_pos hn] at hm
  rw [if_pos (by rw [← hp.length_eq]; exact hn)]
  by_cases hv : (counts_values_sorted a == [1, 3]) = true
  swap
  · rw [if_neg hv] at hm; cases hm
  rw [if_pos hv] at hm
  rw [if_pos (by rw [← counts_values_sorted_perm hp]; exact hv)]
  obtain ⟨r, hr⟩ := filter_eq_singleton_of_cvs (l := a) (by simpa using hv)
    (by decide : ([1, 3] : List Nat).count 3 = 1)
  have hr2 : (counts_keys b).filter (fun r => rank_count b r == 3) = [r] :=
    List.perm_singleton.mp (by rw [← hr]; exact (countsFilter_perm hp 3).symm)
  rw [hr] at hm
  rw [hr2]
  exact hm

lemma tripleWithPairMatch_perm {l₁ l₂ : List Card} (h : l₁.Perm l₂) :
    tripleWithPairMatch l₁ = tripleWithPairMatch l₂ := by
  apply matchFn_perm_of_dir tripleWithPairMatch ?_ l₁ l₂ h
  intro a b hp m hm
  unfold tripleWithPairMatch at hm ⊢
  by_cases hn : (a.length == 5) = true
  swap
  · rw [if_neg hn] at hm; cases hm
  rw [if_pos hn] at hm
  rw [if_pos (by rw [← hp.length_eq]; exact hn)]
  by_cases hv : (counts_values_sorted a == [2, 3]) = true
  swap
  · rw [if_neg hv] at hm; cases hm
  rw [if_pos hv] at hm
  rw [if_pos (by rw [← counts_values_sorted_perm hp]; exact hv)]
  obtain ⟨r, hr⟩ := filter_eq_singleton_of_cvs (l := a) (by simpa using hv)
    (by decide : ([2, 3] : List Nat).count 3 = 1)
  have hr2 : (counts_keys b).filter (fun r => rank_count b r == 3) = [r] :=
    List.perm_singleton.mp (by rw [← hr]; exact (countsFilter_perm hp 3).symm)
  rw [hr] at hm
  rw [hr2]
  exact hm

lemma fourWithTwoSinglesMatch_perm {l₁ l₂ : List Card} (h : l₁.Perm l₂) :
    fourWithTwoSinglesMatch l₁ = fourWithTwoSinglesMatch l₂ := by
  apply matchFn_perm_of_dir fourWithTwoSinglesMatch ?_ l₁ l₂ h
  intro a b hp m hm
  unfold fourWithTwoSinglesMatch at hm ⊢
  by_cases hn : (a.length == 6) = true
  swap
  · rw [if_neg hn] at hm; cases hm
  rw [if_pos hn] at hm
  rw [if_pos (by rw [← hp.length_eq]; exact hn)]
  by_cases hv : (counts_values_sorted a == [1, 1, 4]) = true
  swap
  · rw [if_neg hv] at hm; cases hm
  rw [if_pos hv] at hm
  rw [if_pos (by rw [← counts_values_sorted_perm hp]; exact hv)]
  obtain ⟨r, hr⟩ := filter_eq_singleton_of_cvs (l := a) (by simpa using hv)
    (by decide : ([1, 1, 4] : List Nat).count 4 = 1)
  have hr2 : (counts_keys b).filter (fun r => rank_count b r == 4) = [r] :=
    List.perm_singleton.mp (by rw [← hr]; exact (countsFilter_perm hp 4).symm)
  rw [hr] at hm
  rw [hr2]
  exact hm

lemma fourWithTwoPairsMatch_perm {l₁ l₂ : List Card} (h : l₁.Perm l₂) :
    fourWithTwoPairsMatch l₁ = fourWithTwoPairsMatch l₂ := by
  apply matchFn_perm_of_dir fourWithTwoPairsMatch ?_ l₁ l₂ h
  intro a b hp m hm
  unfold fourWithTwoPairsMatch at hm ⊢
  by_cases hn : (a.length == 8) = true
  swap
  · rw [if_neg hn] at hm; cases hm
  rw [if_pos hn] at hm
  rw [if_pos (by rw [← hp.length_eq]; exact hn)]
  by_cases hv : (counts_values_sorted a == [2, 2, 4]) = true
  swap
  · rw [if_neg hv] at hm; cases hm
  rw [if_pos hv] at hm
  rw [if_pos (by rw [← counts_values_sorted_perm hp]; exact hv)]
  obtain ⟨r, hr⟩ := filter_eq_singleton_of_cvs (l := a) (by simpa using hv)
    (by decide : ([2, 2, 4] : List Nat).count 4 = 1)
  have hr2 : (counts_keys b).filter (fun r => rank_count b r == 4) = [r] :=
    List.perm_singleton.mp (by rw [← hr]; exact (countsFilter_perm hp 4).symm)
  rw [hr] at hm
  rw [hr2]
  exact hm

lemma jokerBombMatch_perm {l₁ l₂ : List Card} (h : l₁.Perm l₂) :
    jokerBombMatch l₁ = jokerBombMatch l₂ := by
  apply matchFn_perm_of_dir jokerBombMatch ?_ l₁ l₂ h
  intro a b hp m hm
  unfold jokerBombMatch at hm ⊢
  by_cases hn : (a.length == 2) = true
  swap
  · rw [if_neg hn] at hm; cases hm
  rw [if_pos hn] at hm
  rw [if_pos (by rw [← hp.length_eq]; exact hn)]
  by_cases hs : (List.insertionSort strLe (rank_list a) == ["BJ", "RJ"]) = true
  swap
  · rw [if_neg hs] at hm; cases hm
  rw [if_pos hs] at hm
  have hsa : List.insertionSort strLe (rank_list a) = ["BJ", "RJ"] := by simpa using hs
  have hpm : (List.insertionSort strLe (rank_list b)).Perm
      (List.insertionSort strLe (rank_list a)) :=
    (List.perm_insertionSort _ _).trans
      ((rank_list_perm hp.symm).trans (List.perm_insertionSort _ _).symm)
  have hsb : List.insertionSort strLe (rank_list b) =
      List.insertionSort strLe (rank_list a) := by
    apply eq_of_perm_sorted strLe _ _ hpm (List.sorted_insertionSort _ _)
      (List.sorted_insertionSort _ _)
    intro x _ y _ hxy hyx
    exact strLe_antisymm hxy hyx
  rw [if_pos (by rw [hsb, hsa]; simp)]
  exact hm

lemma sequenceMatch_perm {l₁ l₂ : List Card} (h : l₁.Perm l₂) :
    sequenceMatch l₁ = sequenceMatch l₂ := by
  apply matchFn_perm_of_dir sequenceMatch ?_ l₁ l₂ h
  intro a b hp m hm
  simp only [sequenceMatch] at hm ⊢
  by_cases h5 : a.length ≥ 5
  swap
  · rw [if_neg h5] at hm; cases hm
  rw [if_pos h5] at hm
  rw [if_pos (hp.length_eq ▸ h5)]
  by_cases hc : (rank_list (sort_cards a)).Nodup ∧
      is_consecutive (rank_list (sort_cards a)) = true
  swap
  · rw [if_neg hc] at hm; cases hm
  rw [if_pos hc] at hm
  have hadj : adjDiffOne ((sort_cards a).map (fun c => (c.value : Int))) = true := by
    have hcons := hc.2
    unfold is_consecutive at hcons
    split_ifs at hcons
    unfold rank_list at hcons
    rw [List.map_map] at hcons
    exact hcons
  have hpw := adjDiffOne_pairwise (fun c => (c.value : Int)) (sort_cards a) hadj
  have hsort : sort_cards a = sort_cards b := by
    apply eq_of_perm_sorted cardSortLe
    · exact (List.perm_insertionSort _ _).trans (hp.trans (List.perm_insertionSort _ _).symm)
    · exact List.sorted_insertionSort _ _
    · exact List.sorted_insertionSort _ _
    · intro x hx y hy hxy hyx
      have hval : x.value = y.value := by
        rcases hxy with hxy | ⟨hxy, -⟩ <;> rcases hyx with hyx | ⟨hyx, -⟩ <;> omega
      exact pairwise_strict_inj _ _ hpw x hx y hy (by exact_mod_cast hval)
  rw [← hsort, if_pos hc]
  exact hm

lemma pairSequenceMatch_perm {l₁ l₂ : List Card} (h : l₁.Perm l₂) :
    pairSequenceMatch l₁ = pairSequenceMatch l₂ := by
  apply matchFn_perm_of_dir pairSequenceMatch ?_ l₁ l₂ h
  intro a b hp m hm
  simp only [pairSequenceMatch] at hm ⊢
  by_cases h6 : a.length ≥ 6 ∧ (a.length % 2 == 0) = true
  swap
  · rw [if_neg h6] at hm; cases hm
  rw [if_pos h6] at hm
  rw [if_pos (by rw [← hp.length_eq]; exact h6)]
  by_cases hall : ((counts_keys a).all (fun r => rank_count a r == 2)) = true
  swap
  · rw [if_neg hall] at hm; cases hm
  rw [if_pos hall] at hm
  have hall2 : ((counts_keys b).all (fun r => rank_count b r == 2)) = true := by
    rw [List.all_eq_true] at hall ⊢
    intro r hr
    rw [← rank_count_funext hp]
    exact hall r ((counts_keys_perm hp).mem_iff.mpr hr)
  rw [if_pos hall2]
  by_cases hcons : is_consecutive (sortedRankKeys a) = true
  swap
  · rw [if_neg hcons] at hm; cases hm
  rw [if_pos hcons] at hm
  have hadj : adjDiffOne ((sortedRankKeys a).map (fun r => (RANK_VALUE r : Int))) = true := by
    unfold is_consecutive at hcons
    split_ifs at hcons
    exact hcons
  have hpw := adjDiffOne_pairwise (fun r => (RANK_VALUE r : Int)) (sortedRankKeys a) hadj
  have hseq : sortedRankKeys a = sortedRankKeys b := by
    unfold sortedRankKeys
    apply eq_of_perm_sorted rankLe
    · exact (List.perm_insertionSort _ _).trans
        ((counts_keys_perm hp).trans (List.perm_insertionSort _ _).symm)
    · exact List.sorted_insertionSort _ _
    · exact List.sorted_insertionSort _ _
    · intro x hx y hy hxy hyx
      have hrv : RANK_VALUE x = RANK_VALUE y := le_antisymm hxy hyx
      exact pairwise_strict_inj _ _ hpw x hx y hy (by exact_mod_cast hrv)
  rw [← hseq, if_pos hcons, ← hp.length_eq]
  exact hm

lemma tripleSequenceMatch_perm {l₁ l₂ : List Card} (h : l₁.Perm l₂) :
    tripleSequenceMatch l₁ = tripleSequenceMatch l₂ := by
  apply matchFn_perm_of_dir tripleSequenceMatch ?_ l₁ l₂ h
  intro a b hp m hm
  simp only [tripleSequenceMatch] at hm ⊢
  by_cases h6 : a.length ≥ 6 ∧ (a.length % 3 == 0) = true
  swap
  · rw [if_neg h6] at hm; cases hm
  rw [if_pos h6] at hm
  rw [if_pos (by rw [← hp.length_eq]; exact h6)]
  by_cases hall : ((counts_keys a).all (fun r => rank_count a r == 3)) = true
  swap
  · rw [if_neg hall] at hm; cases hm
  rw [if_pos hall] at hm
  have hall2 : ((counts_keys b).all (fun r => rank_count b r == 3)) = true := by
    rw [List.all_eq_true] at hall ⊢
    intro r hr
    rw [← rank_count_funext hp]
    exact hall r ((counts_keys_perm hp).mem_iff.mpr hr)
  rw [if_pos hall2]
  by_cases hcons : is_consecutive (sortedRankKeys a) = true
  swap
  · rw [if_neg hcons] at hm; cases hm
  rw [if_pos hcons] at hm
  have hadj : adjDiffOne ((sortedRankKeys a).map (fun r => (RANK_VALUE r : Int))) = true := by
    unfold is_consecutive at hcons
    split_ifs at hcons
    exact hcons
  have hpw := adjDiffOne_pairwise (fun r => (RANK_VALUE r : Int)) (sortedRankKeys a) hadj
  have hseq : sortedRankKeys a = sortedRankKeys b := by
    unfold sortedRankKeys
    apply eq_of_perm_sorted rankLe
    · exact (List.perm_insertionSort _ _).trans
        ((counts_keys_perm hp).trans (List.perm_insertionSort _ _).symm)
    · exact List.sorted_insertionSort _ _
    · exact List.sorted_insertionSort _ _
    · intro x hx y hy hxy hyx
      have hrv : RANK_VALUE x = RANK_VALUE y := le_antisymm hxy hyx
      exact pairwise_strict_inj _ _ hpw x hx y hy (by exact_mod_cast hrv)
  rw [← hseq, if_pos hcons, ← hp.length_eq]
  exact hm

end Pattern

namespace Registry

open Cards Pattern

/-- `evalGo` only looks at each pattern's match of the card list. -/
lemma evalGo_congr (l₁ l₂ : List Card) :
    ∀ ps : List HandPattern, (∀ p ∈ ps, p.matchFn l₁ = p.matchFn l₂) →
      ∀ best, evalGo l₁ best ps = evalGo l₂ best ps := by
  intro ps
  induction ps with
  | nil => intro _ best; rfl
  | cons p ps ih =>
      intro hpp best
      have hp := hpp p (List.mem_cons_self _ _)
      have hrest := fun q hq => hpp q (List.mem_cons_of_mem _ hq)
      cases hm : p.matchFn l₂ with
      | none =>
          rw [evalGo_cons_none best ps (hp.trans hm), evalGo_cons_none best ps hm]
          exact ih hrest best
      | some m =>
          rw [evalGo_cons_some best ps (hp.trans hm), evalGo_cons_some best ps hm]
          exact ih hrest (betterOf best m)

end Registry

section ClaimC9

open Cards Pattern Registry

/-- **C9**: classification is order-independent — for every list of cards
and every permutation of it, `HandRegistry.evaluate` over the builtin
registry returns the same result (same shape name, key, metadata,
priority and size). -/
theorem C9_classification_order_independent (l₁ l₂ : List Card) (h : l₁.Perm l₂) :
    evaluate BUILTIN_PATTERNS l₁ = evaluate BUILTIN_PATTERNS l₂ := by
  unfold evaluate
  apply evalGo_congr l₁ l₂ BUILTIN_PATTERNS ?_ none
  intro p hp
  simp only [BUILTIN_PATTERNS, List.mem_cons, List.not_mem_nil, or_false] at hp
  rcases hp with rfl | rfl | rfl | rfl | rfl | rfl | rfl | rfl | rfl | rfl | rfl | rfl
  · exact jokerBombMatch_perm h
  · exact bombMatch_perm h
  · exact fourWithTwoPairsMatch_perm h
  · exact fourWithTwoSinglesMatch_perm h
  · exact tripleSequenceMatch_perm h
  · exact pairSequenceMatch_perm h
  · exact sequenceMatch_perm h
  · exact tripleWithPairMatch_perm h
  · exact tripleWithSingleMatch_perm h
  · exact tripleMatch_perm h
  · exact pairMatch_perm h
  · exact singleMatch_perm h

/-- Witness for C9 on a shuffled run of 3..7. -/
theorem C9_classification_order_independent_witness :
    evaluate BUILTIN_PATTERNS
        [Cards.Card.mk "7♦", Cards.Card.mk "3♠", Cards.Card.mk "5♥",
         Cards.Card.mk "6♣", Cards.Card.mk "4♠"] =
      evaluate BUILTIN_PATTERNS
        [Cards.Card.mk "3♠", Cards.Card.mk "4♠", Cards.Card.mk "5♥",
         Cards.Card.mk "6♣", Cards.Card.mk "7♦"] :=
  C9_classification_order_independent _ _ (by decide)

end ClaimC9
